import Mathlib

/-!
Verification development for the input-validation / command-construction /
execution / output-sanitization pipeline of the LLVM MCP server.

The TypeScript sources are shallowly embedded:
* JS strings are modelled as Lean `String` / `List Char`; `String.prototype.length`
  counts UTF-16 code units, modelled by `utf16Count`.
* Each JS regular-expression operation is modelled by a specialised scanner
  implementing that concrete pattern with JavaScript matching semantics
  (leftmost match, greedy/lazy quantifiers as in the source pattern).
* A `ValidationResult` value `{success:true, sanitized:v}` is modelled as
  `VResult.ok v`, and `{success:false, error:m}` as `VResult.err m`.
* Asynchronous fallible filesystem operations are modelled with an explicit
  `FileSystem` state and `Except`-style results; wall-clock timing fields
  (`compilationTime` etc.) are outside the embedding and omitted.
-/

/-- Result of one validator: `ok v` models `{success:true, sanitized:v}`,
`err m` models `{success:false, error:m}`. -/
inductive VResult (α : Type) where
  | ok (v : α)
  | err (m : String)
deriving DecidableEq, Repr

namespace VResult

/-- The `success` field of a `ValidationResult`. -/
def success {α : Type} : VResult α → Bool
  | .ok _ => true
  | .err _ => false

end VResult

/-- Width of a character in UTF-16 code units: JavaScript
`String.prototype.length` counts code units, so astral characters count 2. -/
def utf16Width (c : Char) : Nat :=
  if c.toNat < 65536 then 1 else 2

/-- Model of the JavaScript `String.prototype.length` of a string given as its
character list. -/
def utf16Count : List Char → Nat
  | [] => 0
  | c :: cs => utf16Width c + utf16Count cs

/-- Character class `[A-Za-z_]` (start of a macro identifier). -/
def isIdentStartChar (c : Char) : Bool :=
  (('A' ≤ c && c ≤ 'Z') || ('a' ≤ c && c ≤ 'z')) || c = '_'

/-- Character class `[A-Za-z0-9_]` (body of a macro identifier). -/
def isIdentChar (c : Char) : Bool :=
  isIdentStartChar c || ('0' ≤ c && c ≤ '9')

/-- Character class `[A-Za-z0-9_"'.-]` (macro value characters). -/
def isDefineValChar (c : Char) : Bool :=
  isIdentChar c || c = '"' || c = Char.ofNat 39 || c = '.' || c = '-'

/-- Character class (alphanumeric, underscore, slash, dash: include path characters). -/
def isIncludeChar (c : Char) : Bool :=
  isIdentChar c || c = '/' || c = '-'

/-- Whitespace, modelling the regex class `\s` (restricted to the ASCII
whitespace characters Lean knows; the source inputs contain no exotic
whitespace). -/
def isWS (c : Char) : Bool :=
  c.isWhitespace

/-- Model of `String.prototype.startsWith` (kernel-friendly form of
`String.startsWith`). -/
def strStartsWith (s pre : String) : Bool :=
  pre.data.isPrefixOf s.data

/-- Model of `String.prototype.substring(n)` for ASCII strings
(kernel-friendly form of `String.drop`). -/
def strDrop (s : String) (n : Nat) : String :=
  String.mk (s.data.drop n)

/-- Whitespace trim on a character list (both ends). -/
def trimChars (l : List Char) : List Char :=
  ((l.dropWhile isWS).reverse.dropWhile isWS).reverse

/-- Model of `String.prototype.trim` (kernel-friendly form of
`String.trim`). -/
def strTrim (s : String) : String :=
  String.mk (trimChars s.data)

/-- Split a character list on a separator character, modelling
`String.prototype.split` with a one-character separator: the result always
has one more piece than there are separators. -/
def splitOnChar (sep : Char) : List Char → List (List Char)
  | [] => [[]]
  | c :: cs =>
    if c = sep then [] :: splitOnChar sep cs
    else
      match splitOnChar sep cs with
      | h :: t => (c :: h) :: t
      | [] => [[c]]

namespace InputValidator

/-- Source constant `MAX_SOURCE_SIZE = 1024 * 1024`. -/
def MAX_SOURCE_SIZE : Nat := 1024 * 1024

/-- Source constant `ALLOWED_FLAGS` (the exact-match compiler-flag allow-list). -/
def ALLOWED_FLAGS : List String :=
  ["-Wall", "-Wextra", "-Wpedantic", "-Werror",
   "-g", "-O0", "-O1", "-O2", "-O3", "-Os", "-Oz", "-Ofast",
   "-std=c89", "-std=c99", "-std=c11", "-std=c17", "-std=c23",
   "-std=c++98", "-std=c++03", "-std=c++11", "-std=c++14",
   "-std=c++17", "-std=c++20", "-std=c++23",
   "-fno-exceptions", "-fno-rtti", "-fPIC", "-march=native",
   "-mtune=native", "-ffast-math", "-fno-strict-aliasing",
   "-pthread", "-fopenmp"]

/-- Source constant `ALLOWED_FLAG_PREFIXES`. -/
def ALLOWED_FLAG_PREFIXES : List String :=
  ["-D", "-I", "-L", "-l", "-W", "-f", "-m"]

/-- Generic "does the pattern match somewhere" scan modelling
`RegExp.prototype.test` for an unanchored pattern: try the position matcher
at every position. -/
def existsMatchPos (m : List Char → Bool) : List Char → Bool
  | [] => m []
  | c :: cs => m (c :: cs) || existsMatchPos m cs

/-- Case-insensitive literal comparison for the `/i` regex flag: does `l`
start with `lit` up to ASCII case? Returns the remainder on success. -/
def stripCI : List Char → List Char → Option (List Char)
  | [], l => some l
  | _ :: _, [] => none
  | p :: ps, c :: cs => if c.toLower = p.toLower then stripCI ps cs else none

/-- Matcher (at one position) for `/#include\s*<\s*sys\/.*>/i`: after
`sys/`, `.*>` matches iff a `>` occurs later with no newline in between. -/
def dangerMatchSysInclude (l : List Char) : Bool :=
  match stripCI "#include".data l with
  | none => false
  | some l1 =>
    let l2 := l1.dropWhile isWS
    match l2 with
    | '<' :: l3 =>
      let l4 := l3.dropWhile isWS
      match stripCI "sys/".data l4 with
      | none => false
      | some l5 => (l5.takeWhile (fun c => c ≠ '\n')).contains '>'
    | _ => false

/-- Matcher for `/#include\s*<\s*unistd\.h\s*>/i`. -/
def dangerMatchUnistd (l : List Char) : Bool :=
  match stripCI "#include".data l with
  | none => false
  | some l1 =>
    match l1.dropWhile isWS with
    | '<' :: l3 =>
      match stripCI "unistd.h".data (l3.dropWhile isWS) with
      | none => false
      | some l5 =>
        match l5.dropWhile isWS with
        | '>' :: _ => true
        | _ => false
    | _ => false

/-- Matcher for a case-insensitive literal, then `\s*`, then `(`:
covers `/system\s*\(/i` and `/fork\s*\(/i`. -/
def dangerMatchCallCI (lit : String) (l : List Char) : Bool :=
  match stripCI lit.data l with
  | none => false
  | some l1 =>
    match l1.dropWhile isWS with
    | '(' :: _ => true
    | _ => false

/-- Matcher for `/exec\s*[lv]\s*\(/i`. -/
def dangerMatchExec (l : List Char) : Bool :=
  match stripCI "exec".data l with
  | none => false
  | some l1 =>
    match l1.dropWhile isWS with
    | c :: l2 =>
      (c.toLower = 'l' || c.toLower = 'v') &&
        (match l2.dropWhile isWS with
         | '(' :: _ => true
         | _ => false)
    | [] => false

/-- Matcher for `/__asm__/i`. -/
def dangerMatchAsmUnderscore (l : List Char) : Bool :=
  (stripCI "__asm__".data l).isSome

/-- Matcher for `/asm\s+volatile/i` (`\s+` needs at least one whitespace
character). -/
def dangerMatchAsmVolatile (l : List Char) : Bool :=
  match stripCI "asm".data l with
  | none => false
  | some l1 =>
    match l1 with
    | c :: _ =>
      isWS c && (stripCI "volatile".data (l1.dropWhile isWS)).isSome
    | [] => false

/-- Model of the `dangerousPatterns` scan in `validateSourceCode`: true iff
any of the seven patterns matches somewhere in the source.  In the source this
only triggers a `console.warn`; it never influences the validation result. -/
def hasDangerousPattern (source : String) : Bool :=
  existsMatchPos dangerMatchSysInclude source.data ||
  existsMatchPos dangerMatchUnistd source.data ||
  existsMatchPos (dangerMatchCallCI "system") source.data ||
  existsMatchPos dangerMatchExec source.data ||
  existsMatchPos (dangerMatchCallCI "fork") source.data ||
  existsMatchPos dangerMatchAsmUnderscore source.data ||
  existsMatchPos dangerMatchAsmVolatile source.data

/-- Model of `InputValidator.validateSourceCode`.  The `typeof` check is
subsumed by the Lean type; the length checks use the UTF-16 code-unit count
that JavaScript `source.length` returns.  The dangerous-pattern scan
(`hasDangerousPattern`) only logs a warning in the source and is therefore
absent from the result. -/
def validateSourceCode (source : String) : VResult String :=
  if utf16Count source.data = 0 then
    .err "Source code cannot be empty"
  else if utf16Count source.data > MAX_SOURCE_SIZE then
    .err ("Source code exceeds maximum size of " ++ toString MAX_SOURCE_SIZE ++ " bytes")
  else
    .ok source

/-- Source constant `validStandards` of `validateLanguageStandard`. -/
def validStandards : List String :=
  ["c89", "c99", "c11", "c17", "c23",
   "c++98", "c++03", "c++11", "c++14", "c++17", "c++20", "c++23"]

/-- Model of `InputValidator.validateLanguageStandard`. -/
def validateLanguageStandard (language : String) : VResult String :=
  if validStandards.contains language then
    .ok language
  else
    .err ("Invalid language standard. Must be one of: " ++ String.intercalate ", " validStandards)

/-- Source constant `validLevels` of `validateOptimizationLevel`. -/
def validOptLevels : List String :=
  ["O0", "O1", "O2", "O3", "Os", "Oz", "Ofast"]

/-- Model of `InputValidator.validateOptimizationLevel`. -/
def validateOptimizationLevel (optimization : String) : VResult String :=
  if validOptLevels.contains optimization then
    .ok optimization
  else
    .err ("Invalid optimization level. Must be one of: " ++ String.intercalate ", " validOptLevels)

/-- Source constant `validLevels` of `validateWarningLevel`. -/
def validWarningLevels : List String :=
  ["none", "all", "extra", "pedantic", "error"]

/-- Model of `InputValidator.validateWarningLevel`. -/
def validateWarningLevel (warnings : String) : VResult String :=
  if validWarningLevels.contains warnings then
    .ok warnings
  else
    .err ("Invalid warning level. Must be one of: " ++ String.intercalate ", " validWarningLevels)

/-- Model of the anchored regex `/^[A-Za-z_][A-Za-z0-9_]*(?:=[A-Za-z0-9_"'.-]*)?$/`
used by `validateDefines`: identifier, optionally `=` and a value. -/
def defineFormatOk (d : String) : Bool :=
  match d.data with
  | [] => false
  | c :: rest =>
    isIdentStartChar c &&
      (match rest.dropWhile isIdentChar with
       | [] => true
       | '=' :: v => v.all isDefineValChar
       | _ => false)

/-- Model of `InputValidator.validateDefines`: the source loop pushes each
well-formed entry and returns on the first ill-formed one. -/
def validateDefines : List String → VResult (List String)
  | [] => .ok []
  | d :: rest =>
    if defineFormatOk d then
      match validateDefines rest with
      | .ok s => .ok (d :: s)
      | .err m => .err m
    else
      .err ("Invalid define format: " ++ d ++ ". Must be MACRO or MACRO=value")

/-- Boolean substring test, modelling `String.prototype.includes`. -/
def containsSub (p : List Char) : List Char → Bool
  | [] => p.isEmpty
  | c :: cs => p.isPrefixOf (c :: cs) || containsSub p cs

/-- The directory-traversal test of `validateIncludes`:
`include.includes('..') || include.includes('~') || include.startsWith('/')`. -/
def includeTraversalBad (inc : String) : Bool :=
  containsSub "..".data inc.data || inc.data.contains '~' || strStartsWith inc "/"

/-- The character-class test of `validateIncludes`:
the anchored include-path regex (one or more of alphanumeric, underscore, slash, dash). -/
def includeCharsOk (inc : String) : Bool :=
  !inc.data.isEmpty && inc.data.all isIncludeChar

/-- Model of `InputValidator.validateIncludes`. -/
def validateIncludes : List String → VResult (List String)
  | [] => .ok []
  | i :: rest =>
    if includeTraversalBad i then
      .err ("Invalid include path: " ++ i ++ ". Relative paths and traversal not allowed")
    else if !includeCharsOk i then
      .err ("Invalid include path format: " ++ i)
    else
      match validateIncludes rest with
      | .ok s => .ok (i :: s)
      | .err m => .err m

/-- Helper: prepend an accepted flag to the result of validating the rest
(the `sanitized.push(flag); continue` step of the loop). -/
def consOk (f : String) : VResult (List String) → VResult (List String)
  | .ok s => .ok (f :: s)
  | .err m => .err m

/-- Model of `InputValidator.validateCompilerFlags`.  A flag in
`ALLOWED_FLAGS` is accepted outright; otherwise it must carry an allowed
prefix, with `-D` flags re-validated through `validateDefines` and `-I`
flags with a non-empty remainder (JS truthiness of `flag.substring(2)`)
re-validated through `validateIncludes`. -/
def validateCompilerFlags : List String → VResult (List String)
  | [] => .ok []
  | f :: rest =>
    if ALLOWED_FLAGS.contains f then
      consOk f (validateCompilerFlags rest)
    else if ALLOWED_FLAG_PREFIXES.any (fun p => strStartsWith f p) then
      if strStartsWith f "-D" then
        match validateDefines [strDrop f 2] with
        | .ok _ => consOk f (validateCompilerFlags rest)
        | .err _ => .err ("Invalid define flag: " ++ f)
      else if strStartsWith f "-I" then
        if strDrop f 2 = "" then
          consOk f (validateCompilerFlags rest)
        else
          match validateIncludes [strDrop f 2] with
          | .ok _ => consOk f (validateCompilerFlags rest)
          | .err _ => .err ("Invalid include flag: " ++ f)
      else
        consOk f (validateCompilerFlags rest)
    else
      .err ("Disallowed compiler flag: " ++ f)

/-- Model of `InputValidator.validateTimeout` (the `typeof` check is
subsumed by the Lean type; JS numbers are modelled as rationals). -/
def validateTimeout (timeout : ℚ) : VResult ℚ :=
  if timeout < 1 ∨ timeout > 60 then
    .err "Timeout must be between 1 and 60 seconds"
  else
    .ok timeout

/-- Source constant `validCheckers` of `validateCheckers`. -/
def validCheckers : List String :=
  ["core.CallAndMessage", "core.DivideZero", "core.NonNullParamChecker",
   "core.NullDereference", "core.StackAddressEscape",
   "core.UndefinedBinaryOperatorResult", "core.VLASize",
   "core.uninitialized.ArraySubscript", "core.uninitialized.Assign",
   "core.uninitialized.Branch", "core.uninitialized.CapturedBlockVariable",
   "core.uninitialized.UndefReturn", "deadcode.DeadStores",
   "security.insecureAPI.UncheckedReturn", "security.insecureAPI.getpw",
   "security.insecureAPI.gets", "security.insecureAPI.mkstemp",
   "security.insecureAPI.mktemp", "security.insecureAPI.rand",
   "security.insecureAPI.strcpy", "unix.API", "unix.Malloc",
   "unix.MallocSizeof", "unix.MismatchedDeallocator",
   "unix.cstring.BadSizeArg", "unix.cstring.NullArg"]

/-- Model of `InputValidator.validateCheckers`. -/
def validateCheckers : List String → VResult (List String)
  | [] => .ok []
  | c :: rest =>
    if validCheckers.contains c then
      match validateCheckers rest with
      | .ok s => .ok (c :: s)
      | .err m => .err m
    else
      .err ("Invalid checker: " ++ c ++ ". Must be one of: " ++ String.intercalate ", " validCheckers)

end InputValidator

/-! ## Generic model of `String.prototype.replace` with a global regex

`replaceScan m l` scans `l` left to right.  At each position the matcher `m`
either reports a match: `some (k, r)` with `k` consumed characters and the
replacement `r` (scanning resumes after the match), or `none` (the character
is copied and scanning advances one position).  Every concrete matcher below
consumes at least one character when it matches; the `max k 1` exists only to
make termination structural. -/
def replaceScanF (m : List Char → Option (Nat × List Char)) : Nat → List Char → List Char
  | _, [] => []
  | 0, l => l
  | fuel + 1, c :: cs =>
    match m (c :: cs) with
    | some (k, r) => r ++ replaceScanF m fuel ((c :: cs).drop (max k 1))
    | none => c :: replaceScanF m fuel cs

/-- The scan with enough fuel to process the whole input (every step consumes
at least one character, so the input length is enough). -/
def replaceScan (m : List Char → Option (Nat × List Char)) (l : List Char) : List Char :=
  replaceScanF m l.length l

namespace OutputSanitizer

/-- Source constant `MAX_OUTPUT_SIZE = 10 * 1024 * 1024`. -/
def MAX_OUTPUT_SIZE : Nat := 10 * 1024 * 1024

/-- Character class of the Unix path patterns: alphanumeric, underscore,
dot, slash, dash. -/
def isPathA (c : Char) : Bool :=
  c.isAlphanum || c = '_' || c = '.' || c = '/' || c = '-'

/-- Character class of the Windows path patterns: alphanumeric, underscore,
dot, dash, backslash. -/
def isPathB (c : Char) : Bool :=
  c.isAlphanum || c = '_' || c = '.' || c = '-' || c = '\\'

/-- Hexadecimal digit class `[a-fA-F0-9]`. -/
def isHexDigitChar (c : Char) : Bool :=
  c.isDigit || ('a' ≤ c && c ≤ 'f') || ('A' ≤ c && c ≤ 'F')

/-- Last index `i < n` satisfying `p` (used for the backtracking of a greedy
quantifier: the rightmost viable split wins). -/
def lastIdxWhere (p : Nat → Bool) : Nat → Option Nat
  | 0 => none
  | m + 1 => if p m then some m else lastIdxWhere p m

/-- The extension alternation `(cpp|c|h|hpp|cc|cxx)` of the path patterns. -/
def extAlternatives : List String := ["cpp", "c", "h", "hpp", "cc", "cxx"]

/-- Matcher for path pattern 1, a slash, a nonempty greedy run of path
characters, the literal segment `workspace` between slashes, and a captured
nonempty run; the replacement is the captured group.  The greedy first run
backtracks, so the rightmost viable occurrence of the `workspace` segment
inside the maximal path-character run wins. -/
def matchP1 : List Char → Option (Nat × List Char)
  | '/' :: t =>
    let run := t.takeWhile isPathA
    match lastIdxWhere
        (fun q => decide (1 ≤ q) && "/workspace/".data.isPrefixOf (run.drop q)
          && decide (q + 11 < run.length)) run.length with
    | some q => some (1 + run.length, run.drop (q + 11))
    | none => none
  | _ => none

/-- Matcher for path pattern 2: the literal `/tmp/`, a nonempty run of path
characters, a slash, and a captured nonempty run; replacement is the group. -/
def matchP2 (l : List Char) : Option (Nat × List Char) :=
  if "/tmp/".data.isPrefixOf l then
    let run := (l.drop 5).takeWhile isPathA
    match lastIdxWhere
        (fun q => decide (1 ≤ q) && (run.getD q ' ' == '/')
          && decide (q + 1 < run.length)) run.length with
    | some q => some (5 + run.length, run.drop (q + 1))
    | none => none
  else none

/-- Matcher for path pattern 3: a slash, a possibly empty run, a slash, a
captured filename ending in a dot and a recognised extension (also captured),
and a captured `:`-or-whitespace character.  The replacement is the source
callback result `filename + ext + suffix` (note: the extension appears twice,
once inside the filename group and once as the extension group — the callback
in the source concatenates both).  Only the rightmost dot can carry the
extension, and the greedy first run makes the rightmost slash win. -/
def matchP3 : List Char → Option (Nat × List Char)
  | '/' :: t =>
    let run := t.takeWhile isPathA
    match t.drop run.length with
    | x :: _ =>
      if x = ':' || isWS x then
        match lastIdxWhere (fun p => run.getD p ' ' == '.') run.length with
        | some p =>
          let ext := run.drop (p + 1)
          if extAlternatives.contains (String.mk ext) then
            match lastIdxWhere (fun q => run.getD q ' ' == '/') run.length with
            | some q => some (1 + run.length + 1, run.drop (q + 1) ++ ext ++ [x])
            | none => none
          else none
        | none => none
      else none
    | [] => none
  | _ => none

/-- Matcher for path pattern 4 (Windows): an uppercase drive letter, `:`,
a backslash, then as pattern 1 with backslashes. -/
def matchP4 : List Char → Option (Nat × List Char)
  | c :: ':' :: '\\' :: t =>
    if 'A' ≤ c && c ≤ 'Z' then
      let run := t.takeWhile isPathB
      match lastIdxWhere
          (fun q => decide (1 ≤ q) && "\\workspace\\".data.isPrefixOf (run.drop q)
            && decide (q + 11 < run.length)) run.length with
      | some q => some (3 + run.length, run.drop (q + 11))
      | none => none
    else none
  | _ => none

/-- Matcher for path pattern 5 (Windows): an uppercase drive letter, `:`,
a backslash, then as pattern 3 with backslashes (the separating backslash
must have at least one path character before it). -/
def matchP5 : List Char → Option (Nat × List Char)
  | c :: ':' :: '\\' :: t =>
    if 'A' ≤ c && c ≤ 'Z' then
      let run := t.takeWhile isPathB
      match t.drop run.length with
      | x :: _ =>
        if x = ':' || isWS x then
          match lastIdxWhere (fun p => run.getD p ' ' == '.') run.length with
          | some p =>
            let ext := run.drop (p + 1)
            if extAlternatives.contains (String.mk ext) then
              match lastIdxWhere
                  (fun q => decide (1 ≤ q) && (run.getD q ' ' == '\\')) run.length with
              | some q => some (3 + run.length + 1, run.drop (q + 1) ++ ext ++ [x])
              | none => none
            else none
          | none => none
        else none
      | [] => none
    else none
  | _ => none

/-- Matcher for the literal `/workspace/`, replaced by `./`. -/
def mWorkspaceSlash (l : List Char) : Option (Nat × List Char) :=
  if "/workspace/".data.isPrefixOf l then some (11, "./".data) else none

/-- Character class of the `/tmp/` directory-name pattern: alphanumeric,
underscore, dash (no slash, no dot). -/
def isTmpNameChar (c : Char) : Bool :=
  c.isAlphanum || c = '_' || c = '-'

/-- Matcher for `/tmp/`, a nonempty directory name, `/`; replaced by `./`. -/
def mTmpDir (l : List Char) : Option (Nat × List Char) :=
  if "/tmp/".data.isPrefixOf l then
    let run := (l.drop 5).takeWhile isTmpNameChar
    if run.isEmpty then none
    else
      match l.drop (5 + run.length) with
      | '/' :: _ => some (5 + run.length + 1, "./".data)
      | _ => none
  else none

/-- Matcher for a literal followed by one or more digits, replaced by a
fixed string: covers the user/group/process-id patterns. -/
def mLitDigits (lit : String) (repl : String) (l : List Char) : Option (Nat × List Char) :=
  if lit.data.isPrefixOf l then
    let ds := (l.drop lit.length).takeWhile Char.isDigit
    if ds.isEmpty then none else some (lit.length + ds.length, repl.data)
  else none

/-- Matcher for a literal followed by a nonempty greedy run of a character
class, replaced by a fixed string: covers the system-library-path and
`Target:` patterns. -/
def mLitClass (lit : String) (cls : Char → Bool) (repl : String)
    (l : List Char) : Option (Nat × List Char) :=
  if lit.data.isPrefixOf l then
    let run := (l.drop lit.length).takeWhile cls
    if run.isEmpty then none else some (lit.length + run.length, repl.data)
  else none

/-- Matcher for three or more consecutive newlines, replaced by exactly two. -/
def mNewlines (l : List Char) : Option (Nat × List Char) :=
  let run := l.takeWhile (fun c => c == '\n')
  if 3 ≤ run.length then some (run.length, "\n\n".data) else none

/-- Model of `OutputSanitizer.sanitizeCompilerOutput`: size cap, the five
path patterns, the container/tmp path collapses, user/group ids, system
library paths, newline collapse, and a final trim, in source order. -/
def sanitizeCompilerOutput (output : String) : String :=
  let l0 := output.data
  let l1 :=
    if l0.length > MAX_OUTPUT_SIZE then
      l0.take MAX_OUTPUT_SIZE ++ "\n... (output truncated)".data
    else l0
  let l2 := replaceScan matchP1 l1
  let l3 := replaceScan matchP2 l2
  let l4 := replaceScan matchP3 l3
  let l5 := replaceScan matchP4 l4
  let l6 := replaceScan matchP5 l5
  let l7 := replaceScan mWorkspaceSlash l6
  let l8 := replaceScan mTmpDir l7
  let l9 := replaceScan (mLitDigits "User ID: " "") l8
  let l10 := replaceScan (mLitDigits "Group ID: " "") l9
  let l11 := replaceScan (mLitClass "/usr/lib/" isPathA "<system_lib>") l10
  let l12 := replaceScan (mLitClass "/lib/" isPathA "<system_lib>") l11
  let l13 := replaceScan mNewlines l12
  String.mk (trimChars l13)

/-- Matcher for the case-insensitive `container` literal followed by twelve
or more hex digits, replaced by `container <id>`. -/
def mContainer (l : List Char) : Option (Nat × List Char) :=
  match InputValidator.stripCI "container ".data l with
  | none => none
  | some l1 =>
    let run := l1.takeWhile isHexDigitChar
    if 12 ≤ run.length then some (10 + run.length, "container <id>".data) else none

/-- Matcher for exactly `n` digits, returning the remainder. -/
def takeDigitsExact : Nat → List Char → Option (List Char)
  | 0, l => some l
  | n + 1, c :: cs => if c.isDigit then takeDigitsExact n cs else none
  | _ + 1, [] => none

/-- Matcher for the ISO-8601-style timestamp pattern (4-2-2 digits, a space,
2:2:2 digits), replaced by `<timestamp>`. -/
def mTimestamp (l : List Char) : Option (Nat × List Char) :=
  match takeDigitsExact 4 l with
  | none => none
  | some l1 =>
    match l1 with
    | '-' :: l2 =>
      match takeDigitsExact 2 l2 with
      | none => none
      | some l3 =>
        match l3 with
        | '-' :: l4 =>
          match takeDigitsExact 2 l4 with
          | none => none
          | some l5 =>
            match l5 with
            | ' ' :: l6 =>
              match takeDigitsExact 2 l6 with
              | none => none
              | some l7 =>
                match l7 with
                | ':' :: l8 =>
                  match takeDigitsExact 2 l8 with
                  | none => none
                  | some l9 =>
                    match l9 with
                    | ':' :: l10 =>
                      match takeDigitsExact 2 l10 with
                      | none => none
                      | some _ => some (19, "<timestamp>".data)
                    | _ => none
                | _ => none
            | _ => none
        | _ => none
    | _ => none

/-- Model of `OutputSanitizer.sanitizeErrorMessages`: `sanitizeCompilerOutput`
followed by the container-id, process-id and timestamp scrubs. -/
def sanitizeErrorMessages (stderr : String) : String :=
  let s1 := (sanitizeCompilerOutput stderr).data
  let s2 := replaceScan mContainer s1
  let s3 := replaceScan (mLitDigits "PID: " "PID: <id>") s2
  let s4 := replaceScan (mLitDigits "process " "process <id>") s3
  let s5 := replaceScan mTimestamp s4
  String.mk s5

/-- Character class of the captured filename of `sanitizeFilePaths`:
alphanumeric, underscore, dot, dash. -/
def sfpChar (c : Char) : Bool :=
  c.isAlphanum || c = '_' || c = '.' || c = '-'

/-- Slash or backslash (the path-part delimiters of `sanitizeFilePaths`). -/
def isSlashChar (c : Char) : Bool :=
  c = '/' || c = '\\'

/-- The lookahead class of `sanitizeFilePaths`: whitespace, `:`, or a literal
dollar character (the `$` stands inside a character class, so it is a plain
character, not an anchor). -/
def isLookChar (c : Char) : Bool :=
  isWS c || c = ':' || c = '$'

/-- The filename group of `sanitizeFilePaths` plus its lookahead: a nonempty
run of filename characters ending in a dot and a recognised extension, whose
following character exists and is in the lookahead class (and is not
consumed).  Returns the consumed length and the group. -/
def sfpGroup2 (l : List Char) : Option (Nat × List Char) :=
  let frun := l.takeWhile sfpChar
  match l.drop frun.length with
  | x :: _ =>
    if isLookChar x then
      match lastIdxWhere (fun p => frun.getD p ' ' == '.') frun.length with
      | some p =>
        if decide (1 ≤ p) && extAlternatives.contains (String.mk (frun.drop (p + 1))) then
          some (frun.length, frun)
        else none
      | none => none
    else none
  | [] => none

/-- Search for the lazy closing delimiter of the optional path group of
`sanitizeFilePaths`: scan left to right (the lazy quantifier prefers the
earliest closing), never across a newline, and at each delimiter try the
filename group after it. -/
def sfpPathSearch : List Char → Option (Nat × List Char)
  | [] => none
  | c :: t =>
    if c = '\n' then none
    else if isSlashChar c then
      match sfpGroup2 t with
      | some (k, g2) => some (1 + k, g2)
      | none =>
        match sfpPathSearch t with
        | some (k, g2) => some (1 + k, g2)
        | none => none
    else
      match sfpPathSearch t with
      | some (k, g2) => some (1 + k, g2)
      | none => none

/-- The body of one `sanitizeFilePaths` match after its leading anchor: the
optional (greedy) path part, then the filename group.  The emitted text is
the filename group alone — the source callback deletes the path part from
the match. -/
def sfpAfterLead (l : List Char) : Option (Nat × List Char) :=
  match l with
  | c :: t =>
    if isSlashChar c then
      match sfpPathSearch t with
      | some (k, g2) => some (1 + k, g2)
      | none => sfpGroup2 l
    else sfpGroup2 l
  | [] => none

/-- Driver for `sanitizeFilePaths`: the match may be anchored at the string
start (the first alternative of the leading group, tried only at position 0)
or consume one whitespace-or-colon character. -/
def sfpScanGo : Bool → Nat → List Char → List Char
  | _, _, [] => []
  | _, 0, l => l
  | atStart, fuel + 1, c :: cs =>
    match (if atStart then sfpAfterLead (c :: cs) else none) with
    | some (k, g2) => g2 ++ sfpScanGo false fuel ((c :: cs).drop (max k 1))
    | none =>
      if isWS c || c = ':' then
        match sfpAfterLead cs with
        | some (k, g2) => c :: (g2 ++ sfpScanGo false fuel (cs.drop (max k 1)))
        | none => c :: sfpScanGo false fuel cs
      else c :: sfpScanGo false fuel cs

/-- Model of `OutputSanitizer.sanitizeFilePaths` (the fuel covers the whole
input: every step consumes at least one character). -/
def sanitizeFilePaths (text : String) : String :=
  String.mk (sfpScanGo true text.data.length text.data)

/-- Model of `OutputSanitizer.limitOutputSize`. -/
def limitOutputSize (output : List Char) (maxSize : Nat) : List Char :=
  if output.length ≤ maxSize then output
  else
    let truncationMsg := "\n... (output truncated due to size limit)".data
    output.take (maxSize - truncationMsg.length) ++ truncationMsg

/-- The `[0-9]+\.[0-9]+\.[0-9]+` version core followed by the rest of the
line (`[^\n]*`); returns the consumed length. -/
def versionTail (l : List Char) : Option Nat :=
  let d1 := l.takeWhile Char.isDigit
  if d1.isEmpty then none
  else
    match l.drop d1.length with
    | '.' :: l2 =>
      let d2 := l2.takeWhile Char.isDigit
      if d2.isEmpty then none
      else
        match l2.drop d2.length with
        | '.' :: l3 =>
          let d3 := l3.takeWhile Char.isDigit
          if d3.isEmpty then none
          else
            let rest := (l3.drop d3.length).takeWhile (fun c => c ≠ '\n')
            some (d1.length + 1 + d2.length + 1 + d3.length + rest.length)
        | _ => none
    | _ => none

/-- Matcher for `tool version x.y.z...` up to the end of the line, replaced
by `tool version <version>`. -/
def mToolVersion (tool : String) (l : List Char) : Option (Nat × List Char) :=
  let lit := tool ++ " version "
  if lit.data.isPrefixOf l then
    match versionTail (l.drop lit.length) with
    | some k => some (lit.length + k, (tool ++ " version <version>").data)
    | none => none
  else none

/-- Character class of the `Target:` pattern: alphanumeric, underscore, dot,
dash. -/
def isTargetChar (c : Char) : Bool :=
  c.isAlphanum || c = '_' || c = '.' || c = '-'

/-- Model of `OutputSanitizer.removeSystemInfo`: version banners, target
triple, installation directory, thread model. -/
def removeSystemInfo (output : String) : String :=
  let s1 := replaceScan (mToolVersion "clang") output.data
  let s2 := replaceScan (mToolVersion "gcc") s1
  let s3 := replaceScan (mLitClass "Target: " isTargetChar "Target: <target>") s2
  let s4 := replaceScan (mLitClass "InstalledDir: " (fun c => c ≠ '\n') "InstalledDir: <path>") s3
  let s5 := replaceScan (mLitClass "Thread model: " (fun c => c ≠ '\n') "Thread model: <model>") s4
  String.mk s5

/-- Model of `OutputSanitizer.sanitizeStdout`. -/
def sanitizeStdout (stdout : String) : String :=
  removeSystemInfo (sanitizeFilePaths (sanitizeCompilerOutput stdout))

/-- Model of `OutputSanitizer.sanitizeStderr`. -/
def sanitizeStderr (stderr : String) : String :=
  removeSystemInfo (sanitizeFilePaths (sanitizeErrorMessages stderr))

/-- Matcher for a hexadecimal memory address `0x` followed by one or more
hex digits (greedy), replaced by `<address>`. -/
def mHexAddr : List Char → Option (Nat × List Char)
  | c0 :: c1 :: c2 :: rest =>
    if c0 = '0' && c1 = 'x' && isHexDigitChar c2 then
      some (3 + (rest.takeWhile isHexDigitChar).length, "<address>".data)
    else none
  | _ => none

/-- Matcher for `line:` digits, a space, `col:` digits, replaced by
`line:<line> col:<col>`. -/
def mLineCol (l : List Char) : Option (Nat × List Char) :=
  if "line:".data.isPrefixOf l then
    let l1 := l.drop 5
    let ds := l1.takeWhile Char.isDigit
    if ds.isEmpty then none
    else
      let l2 := l1.drop ds.length
      if " col:".data.isPrefixOf l2 then
        let es := (l2.drop 5).takeWhile Char.isDigit
        if es.isEmpty then none
        else some (5 + ds.length + 5 + es.length, "line:<line> col:<col>".data)
      else none
  else none

/-- Model of `OutputSanitizer.sanitizeAST`: file-path scrub, size cap, then
the memory-address and line/column scrubs, in source order. -/
def sanitizeAST (ast : String) : String :=
  let s1 := (sanitizeFilePaths ast).data
  let s2 := limitOutputSize s1 MAX_OUTPUT_SIZE
  let s3 := replaceScan mHexAddr s2
  let s4 := replaceScan mLineCol s3
  String.mk s4

end OutputSanitizer

/-! ## Shared data model of the tools layer -/

/-- One parsed compiler diagnostic (`DiagnosticMessage` in `types/index.ts`);
the severity union type is modelled as a string. -/
structure DiagnosticMessage where
  line : Nat
  column : Nat
  message : String
  severity : String
deriving DecidableEq, Repr

/-- The bucketed diagnostics of a compilation response. -/
structure CompilationDiagnostics where
  errors : List DiagnosticMessage
  warnings : List DiagnosticMessage
  notes : List DiagnosticMessage
deriving DecidableEq, Repr

/-- Result of one clang child-process execution
(`ClangExecutionResult` in `BaseClangTool.ts`). -/
structure ClangExecutionResult where
  success : Bool
  exitCode : Int
  stdout : String
  stderr : String
deriving DecidableEq, Repr

/-- How the external child process behaves: it is an opaque external program,
so its outcome is a parameter of the embedding.  `closed code` is the `close`
event (a `null` code, e.g. death by signal, is `none`); `procError` is the
`error` event; `timeout` means the wall-clock timer fired first. -/
inductive ProcessOutcome where
  | timeout
  | procError (msg : String)
  | closed (code : Option Int)
deriving DecidableEq, Repr

/-- The externally observable behaviour of one child-process run: the
captured streams and the terminating event. -/
structure ExecBehavior where
  stdout : String
  stderr : String
  outcome : ProcessOutcome
deriving DecidableEq, Repr

/-- The filesystem state visible to the tools: existing directories, files
with contents, and the injected failure sets of the two fallible operations
(`fs.writeFile` and `fs.mkdir` return rejected promises on these paths). -/
structure FileSystem where
  dirs : List String
  files : List (String × String)
  failingWrites : List String
  failingMkdirs : List String
deriving DecidableEq, Repr

/-- The `error` payload of an `ErrorResponse`. -/
structure ErrorPayload where
  code : String
  message : String
deriving DecidableEq, Repr

/-- Model of `path.join` for the simple two-segment joins the tools perform. -/
def joinPath (a b : String) : String := a ++ "/" ++ b

/-- Digits-to-number, modelling `parseInt` on an all-digit capture. -/
def readNat (ds : List Char) : Nat :=
  ds.foldl (fun n c => n * 10 + (c.toNat - 48)) 0

namespace BaseClangTool

/-- The Unix branch of `determineTempDir` (no `MCP_TEMP_DIR` override,
`process.platform !== 'win32'`). -/
def defaultTempDir : String := "/tmp/mcp-compilation"

/-- Model of `BaseClangTool.executeClang`.  The promise always resolves:
on timeout or a process `error` event it resolves with `success:false`,
`exitCode:-1` and the marker appended to the captured stderr; on `close`
it reports the exit code (`code || 0` maps a `null` code to `0`) and
`success` iff the code is exactly `0`.  The `command` and `timeout`
arguments do not influence the modelled result because the child process
is the external `beh` parameter. -/
def executeClang (command : List String) (beh : ExecBehavior) (timeout : ℚ)
    (timeoutMessage : Option String) : ClangExecutionResult :=
  match beh.outcome with
  | .timeout =>
    { success := false, exitCode := -1, stdout := beh.stdout,
      stderr := beh.stderr ++ "\n" ++ timeoutMessage.getD "Clang execution timed out" }
  | .procError msg =>
    { success := false, exitCode := -1, stdout := beh.stdout,
      stderr := beh.stderr ++ "\nProcess error: " ++ msg }
  | .closed code =>
    { success := code = some 0, exitCode := (match code with | some n => n | none => 0),
      stdout := beh.stdout, stderr := beh.stderr }

/-- Model of `BaseClangTool.getFileExtension`. -/
def getFileExtension (language : String) : String :=
  if strStartsWith language "c++" || language = "cpp" then "cpp" else "c"

/-- Model of `BaseClangTool.createWorkEnvironment`: `mkdir` the work
directory, then write the source file into it.  Both filesystem calls can
reject; a rejection after `mkdir` leaves the directory behind because the
exception propagates to the caller. -/
def createWorkEnvironment (tempDir uuid sourceCode language : String)
    (fs : FileSystem) : FileSystem × Except String (String × String) :=
  let workDir := joinPath tempDir uuid
  if fs.failingMkdirs.contains workDir then
    (fs, .error "mkdir failed")
  else
    let fs1 : FileSystem := { fs with dirs := fs.dirs ++ [workDir] }
    let sourceFile := joinPath workDir ("source." ++ getFileExtension language)
    if fs.failingWrites.contains sourceFile then
      (fs1, .error "writeFile failed")
    else
      ({ fs1 with files := fs1.files ++ [(sourceFile, sourceCode)] },
       .ok (workDir, sourceFile))

/-- Model of `BaseClangTool.cleanupWorkEnvironment`:
`fs.rm(workDir, {recursive:true, force:true})` removes the directory and
everything under it; a failure is caught and only logged, so the call is
modelled as total. -/
def cleanupWorkEnvironment (workDir : String) (fs : FileSystem) : FileSystem :=
  { fs with
    dirs := fs.dirs.filter
      (fun d => !(d = workDir || (workDir ++ "/").data.isPrefixOf d.data)),
    files := fs.files.filter
      (fun f => !((workDir ++ "/").data.isPrefixOf f.1.data)) }

/-- Model of `BaseClangTool.executeWithCleanup`.  The source wraps only the
operation in `try .. finally cleanup`, so the cleanup runs whether the
operation returns or throws — but a failure inside `createWorkEnvironment`
propagates before the `try` block is entered and no cleanup runs on that
path. -/
def executeWithCleanup {α : Type} (tempDir uuid sourceCode language : String)
    (operation : String → String → FileSystem → FileSystem × Except String α)
    (fs : FileSystem) : FileSystem × Except String α :=
  match createWorkEnvironment tempDir uuid sourceCode language fs with
  | (fs1, .error e) => (fs1, .error e)
  | (fs1, .ok (workDir, sourceFile)) =>
    let r := operation workDir sourceFile fs1
    (cleanupWorkEnvironment workDir r.1, r.2)

/-- The `([0-9]+\.[0-9]+\.[0-9]+)` capture of the clang-version regex. -/
def versionCore (l : List Char) : Option (List Char) :=
  let d1 := l.takeWhile Char.isDigit
  if d1.isEmpty then none
  else
    match l.drop d1.length with
    | '.' :: l2 =>
      let d2 := l2.takeWhile Char.isDigit
      if d2.isEmpty then none
      else
        match l2.drop d2.length with
        | '.' :: l3 =>
          let d3 := l3.takeWhile Char.isDigit
          if d3.isEmpty then none
          else some (d1 ++ '.' :: d2 ++ '.' :: d3)
        | _ => none
    | _ => none

/-- First match of `clang version (\d+\.\d+\.\d+)` in a text, returning the
captured version. -/
def findClangVersion : List Char → Option (List Char)
  | [] => none
  | c :: cs =>
    match
      (if "clang version ".data.isPrefixOf (c :: cs) then
        versionCore ((c :: cs).drop 14)
      else none) with
    | some v => some v
    | none => findClangVersion cs

/-- Model of `BaseClangTool.extractClangVersion`. -/
def extractClangVersion (stdout stderr : String) : String :=
  let combinedOutput := stdout ++ "\n" ++ stderr
  match findClangVersion combinedOutput.data with
  | some v => "clang version " ++ String.mk v
  | none => "clang (version unknown)"

end BaseClangTool

/-! ## Shared JS-truthiness helpers for optional request fields -/

/-- JS truthiness of an optional string field: `undefined` and the empty
string are falsy (`if (options.x)` skips both). -/
def truthyS : Option String → Option String
  | some s => if s = "" then none else some s
  | none => none

/-- JS truthiness of an optional numeric field: `undefined` and `0` are
falsy. -/
def truthyQ : Option ℚ → Option ℚ
  | some t => if t = 0 then none else some t
  | none => none

/-- Forget the sanitized payload of a validation result (the facades only
look at `success` and `error`). -/
def asUnit {α : Type} : VResult α → VResult Unit
  | .ok _ => .ok ()
  | .err m => .err m

/-- Early-return sequencing of the facade `validateInputs` chains:
a failed step short-circuits with its message. -/
def seqV (first : VResult Unit) (next : VResult Unit) : VResult Unit :=
  match first with
  | .ok _ => next
  | .err m => .err m

/-- Validate an optional field if present (`if (options.x) { ... }`). -/
def checkOpt {β γ : Type} (o : Option β) (v : β → VResult γ) : VResult Unit :=
  match o with
  | some x => asUnit (v x)
  | none => .ok ()

/-! ## Diagnostic-line parsing (shared regex machinery) -/

/-- The severity alternation `(error|warning|note)`: the three literals are
prefix-disjoint, so the alternation order in the source patterns is
immaterial. -/
def matchSev (l : List Char) : Option (String × List Char) :=
  if "error".data.isPrefixOf l then some ("error", l.drop 5)
  else if "warning".data.isPrefixOf l then some ("warning", l.drop 7)
  else if "note".data.isPrefixOf l then some ("note", l.drop 4)
  else none

/-- The trailing `\s*(.+)$` of the diagnostic patterns: greedy whitespace,
then a nonempty newline-free rest.  When everything after the whitespace is
empty the greedy `\s*` gives one whitespace character back to `(.+)`
(provided it is not a newline, which `.` cannot match). -/
def dotPlusToEnd (l : List Char) : Option (List Char) :=
  let ws := l.takeWhile isWS
  let rest := l.drop ws.length
  if rest.isEmpty then
    match ws.getLast? with
    | some c => if c = '\n' then none else some [c]
    | none => none
  else if rest.contains '\n' then none
  else some rest

/-- The `(\d+):(\d+):` fragment: two nonempty digit runs and their colons,
returning the numbers and the remainder. -/
def lineColNums (l : List Char) : Option (Nat × Nat × List Char) :=
  let d1 := l.takeWhile Char.isDigit
  if d1.isEmpty then none
  else
    match l.drop d1.length with
    | ':' :: l2 =>
      let d2 := l2.takeWhile Char.isDigit
      if d2.isEmpty then none
      else
        match l2.drop d2.length with
        | ':' :: l3 => some (readNat d1, readNat d2, l3)
        | _ => none
    | _ => none

/-- The `\s*(error|warning|note):\s*(.+)$` tail shared by the diagnostic
patterns, returning the severity and the already-trimmed message (the source
applies `.trim()` to the captured message). -/
def sevMsg (l : List Char) : Option (String × String) :=
  match matchSev (l.dropWhile isWS) with
  | some (sev, l6) =>
    match l6 with
    | ':' :: l7 =>
      match dotPlusToEnd l7 with
      | some msg => some (sev, strTrim (String.mk msg))
      | none => none
    | _ => none
  | none => none

/-- Driver for the lazy leading `^(.+?):` group of the diagnostic patterns:
the filename group is nonempty, cannot contain a newline, and grows until
the tail pattern matches after one of its `:` delimiters (earliest first). -/
def scanFileGroup {α : Type} (tailParse : List Char → Option α) : List Char → Option α
  | [] => none
  | c :: rest =>
    if c = '\n' then none
    else
      match rest with
      | ':' :: t =>
        (match tailParse t with
         | some d => some d
         | none => scanFileGroup tailParse rest)
      | _ => scanFileGroup tailParse rest

namespace CompilationTool

/-- The request object of the compile tool (`CompilationOptions`). -/
structure CompilationOptions where
  sourceCode : String
  language : Option String
  optimization : Option String
  warnings : Option String
  defines : Option (List String)
  includes : Option (List String)
  flags : Option (List String)
  compileOnly : Bool
  timeout : Option ℚ
deriving DecidableEq, Repr

/-- Model of `CompilationTool.validateInputs`: the fixed source-order
validation chain with early return; optional fields are validated only when
JS-truthy. -/
def validateInputs (o : CompilationOptions) : VResult Unit :=
  seqV (asUnit (InputValidator.validateSourceCode o.sourceCode))
    (seqV (checkOpt (truthyS o.language) InputValidator.validateLanguageStandard)
      (seqV (checkOpt (truthyS o.optimization) InputValidator.validateOptimizationLevel)
        (seqV (checkOpt (truthyS o.warnings) InputValidator.validateWarningLevel)
          (seqV (checkOpt o.defines InputValidator.validateDefines)
            (seqV (checkOpt o.includes InputValidator.validateIncludes)
              (seqV (checkOpt o.flags InputValidator.validateCompilerFlags)
                (checkOpt (truthyQ o.timeout) InputValidator.validateTimeout)))))))

/-- The warning-policy flag groups of `buildCompilerCommand` (the `switch`
has no default case, so an unexpected value pushes nothing; the `none`
branch is the default policy of the `else`). -/
def warningFlags : Option String → List String
  | none => ["-Wall", "-Wextra", "-Wpedantic"]
  | some w =>
    if w = "none" then ["-w"]
    else if w = "all" then ["-Wall"]
    else if w = "extra" then ["-Wall", "-Wextra"]
    else if w = "pedantic" then ["-Wall", "-Wextra", "-Wpedantic"]
    else if w = "error" then ["-Wall", "-Wextra", "-Werror"]
    else []

/-- Model of `CompilationTool.buildCompilerCommand`: the pushes of the
source, in order.  The output path is `path.join(workDir, ...)` and the
source file is pushed last. -/
def buildCompilerCommand (o : CompilationOptions) (sourceFile workDir : String) : List String :=
  ["clang++"]
  ++ (match truthyS o.language with
      | some lang => ["-std=" ++ lang]
      | none => [])
  ++ (match truthyS o.optimization with
      | some opt => ["-" ++ opt]
      | none => ["-O2"])
  ++ ["-march=native"]
  ++ warningFlags (truthyS o.warnings)
  ++ (match o.defines with
      | some ds => ds.map (fun d => "-D" ++ d)
      | none => [])
  ++ (match o.includes with
      | some incs => incs.map (fun i => "-I" ++ i)
      | none => [])
  ++ (match o.flags with
      | some fl => fl
      | none => [])
  ++ (if o.compileOnly then ["-c"] else [])
  ++ ["-o", joinPath workDir (if o.compileOnly then "main.o" else "main"), sourceFile]

/-- The two-number tail of the clang diagnostic pattern
`(\d+):(\d+):\s*(error|warning|note):\s*(.+)$`. -/
def clangTail (l : List Char) : Option DiagnosticMessage :=
  match lineColNums l with
  | some (ln, col, l4) =>
    match sevMsg l4 with
    | some (sev, msg) =>
      some { line := ln, column := col, message := msg, severity := sev }
    | none => none
  | none => none

/-- The one-number tail of the fallback pattern
`(\d+):\s*(error|warning|note):\s*(.+)$` (column defaults to 0). -/
def simpleTail (l : List Char) : Option DiagnosticMessage :=
  let d1 := l.takeWhile Char.isDigit
  if d1.isEmpty then none
  else
    match l.drop d1.length with
    | ':' :: l3 =>
      match sevMsg l3 with
      | some (sev, msg) =>
        some { line := readNat d1, column := 0, message := msg, severity := sev }
      | none => none
    | _ => none

/-- Model of `CompilationTool.parseDiagnosticLine`: the full
`filename:line:column:` pattern first, then the column-less fallback. -/
def parseDiagnosticLine (line : String) : Option DiagnosticMessage :=
  match scanFileGroup clangTail line.data with
  | some d => some d
  | none => scanFileGroup simpleTail line.data

/-- Body of the line loop of `CompilationTool.parseDiagnostics`: push the
parsed record (if any) into the bucket of its severity. -/
def diagStep (acc : CompilationDiagnostics) (line : String) : CompilationDiagnostics :=
  match parseDiagnosticLine line with
  | some d =>
    if d.severity = "error" then { acc with errors := acc.errors ++ [d] }
    else if d.severity = "warning" then { acc with warnings := acc.warnings ++ [d] }
    else if d.severity = "note" then { acc with notes := acc.notes ++ [d] }
    else acc
  | none => acc

/-- Model of `CompilationTool.parseDiagnostics`: split on newlines and push
each parsed record into its severity bucket, in line order (`!stderr` is
JS-falsy exactly on the empty string). -/
def parseDiagnostics (stderr : String) : CompilationDiagnostics :=
  if stderr = "" then { errors := [], warnings := [], notes := [] }
  else
    (((splitOnChar '\n' stderr.data).map String.mk)).foldl diagStep
      { errors := [], warnings := [], notes := [] }

/-- The success payload of the compile tool (`CompilationResponse`);
the wall-clock `compilationTime` field is outside the embedding. -/
structure CompilationResponse where
  success : Bool
  exitCode : Int
  stdout : String
  stderr : String
  diagnostics : CompilationDiagnostics
  clangVersion : String
deriving DecidableEq, Repr

/-- Return value of `CompilationTool.compile`: a `CompilationResponse` or an
`ErrorResponse`. -/
inductive CompileReturn where
  | response (r : CompilationResponse)
  | error (e : ErrorPayload)
deriving DecidableEq, Repr

/-- Model of `CompilationTool.compile`: validate, run under
`executeWithCleanup`, sanitize, parse, respond.  A validation failure
returns a `VALIDATION_ERROR`; a thrown error (here: an environment-creation
failure) is caught and returned as a `COMPILATION_ERROR`.  `executeClang`
itself always resolves, so a timeout or spawn failure still takes the
response path. -/
def compile (o : CompilationOptions) (uuid : String) (beh : ExecBehavior)
    (fs : FileSystem) : FileSystem × CompileReturn :=
  match validateInputs o with
  | .err m => (fs, .error { code := "VALIDATION_ERROR", message := m })
  | .ok _ =>
    let run := BaseClangTool.executeWithCleanup BaseClangTool.defaultTempDir uuid
      o.sourceCode ((truthyS o.language).getD "c++17")
      (fun workDir sourceFile fsx =>
        (fsx, .ok (BaseClangTool.executeClang
          (buildCompilerCommand o sourceFile workDir) beh
          ((truthyQ o.timeout).getD 30) (some "Compilation timed out"))))
      fs
    match run.2 with
    | .ok result =>
      let sanitizedStdout := OutputSanitizer.sanitizeStdout result.stdout
      let sanitizedStderr := OutputSanitizer.sanitizeStderr result.stderr
      (run.1, .response
        { success := result.success
          exitCode := result.exitCode
          stdout := sanitizedStdout
          stderr := sanitizedStderr
          diagnostics := parseDiagnostics sanitizedStderr
          clangVersion := BaseClangTool.extractClangVersion result.stdout result.stderr })
    | .error e => (run.1, .error { code := "COMPILATION_ERROR", message := e })

end CompilationTool

namespace StaticAnalysisTool

/-- The request object of the static-analysis tool (`StaticAnalysisOptions`). -/
structure StaticAnalysisOptions where
  sourceCode : String
  language : Option String
  checkers : Option (List String)
  defines : Option (List String)
  includes : Option (List String)
deriving DecidableEq, Repr

/-- One analyzer finding (`AnalysisResult` in `types/index.ts`). -/
structure AnalysisResult where
  checker : String
  line : Nat
  column : Nat
  message : String
  severity : String
  category : String
deriving DecidableEq, Repr

/-- The success payload of the analysis tool (`StaticAnalysisResponse`);
the wall-clock `analysisTime` field is outside the embedding. -/
structure StaticAnalysisResponse where
  success : Bool
  analysisResults : List AnalysisResult
deriving DecidableEq, Repr

/-- Return value of `StaticAnalysisTool.analyze`. -/
inductive AnalyzeReturn where
  | response (r : StaticAnalysisResponse)
  | error (e : ErrorPayload)
deriving DecidableEq, Repr

/-- Model of `StaticAnalysisTool.validateInputs`. -/
def validateInputs (o : StaticAnalysisOptions) : VResult Unit :=
  seqV (asUnit (InputValidator.validateSourceCode o.sourceCode))
    (seqV (checkOpt (truthyS o.language) InputValidator.validateLanguageStandard)
      (seqV (checkOpt o.checkers InputValidator.validateCheckers)
        (seqV (checkOpt o.defines InputValidator.validateDefines)
          (checkOpt o.includes InputValidator.validateIncludes))))

/-- The `defaultCheckers` constant of `buildAnalyzerCommand`. -/
def defaultCheckers : List String :=
  ["core.CallAndMessage", "core.DivideZero", "core.NonNullParamChecker",
   "core.NullDereference", "core.UndefinedBinaryOperatorResult",
   "deadcode.DeadStores", "security.insecureAPI.UncheckedReturn",
   "unix.API", "unix.Malloc"]

/-- Model of `StaticAnalysisTool.buildAnalyzerCommand`. -/
def buildAnalyzerCommand (o : StaticAnalysisOptions) (sourceFile workDir : String) : List String :=
  ["clang", "--analyze"]
  ++ (match truthyS o.language with
      | some lang =>
        if strStartsWith lang "c++" then ["-x", "c++", "-std=" ++ lang]
        else ["-x", "c", "-std=" ++ lang]
      | none => ["-x", "c++", "-std=c++17"])
  ++ (match o.checkers with
      | some cs =>
        if 0 < cs.length then
          cs.foldr (fun c acc => "-Xanalyzer" :: ("-analyzer-checker=" ++ c) :: acc) []
        else
          defaultCheckers.foldr (fun c acc => "-Xanalyzer" :: ("-analyzer-checker=" ++ c) :: acc) []
      | none =>
        defaultCheckers.foldr (fun c acc => "-Xanalyzer" :: ("-analyzer-checker=" ++ c) :: acc) [])
  ++ ["-Xanalyzer", "-analyzer-output=text"]
  ++ (match o.defines with
      | some ds => ds.map (fun d => "-D" ++ d)
      | none => [])
  ++ (match o.includes with
      | some incs => incs.map (fun i => "-I" ++ i)
      | none => [])
  ++ ["-w"]
  ++ [sourceFile]

/-- Model of `StaticAnalysisTool.categorizeChecker`. -/
def categorizeChecker (checker : String) : String :=
  if strStartsWith checker "core." then "core"
  else if strStartsWith checker "security." then "security"
  else if strStartsWith checker "unix." then "unix"
  else if strStartsWith checker "deadcode." then "deadcode"
  else if strStartsWith checker "alpha." then "experimental"
  else "other"

/-- The `\[([^\]]+)\]$` tail of the analyzer main pattern: a nonempty run
without `]`, the closing `]`, and the end of the line. -/
def bracketTail (after : List Char) : Option String :=
  let body := after.takeWhile (fun c => c ≠ ']')
  match after.drop body.length with
  | [']'] => if body.isEmpty then none else some (String.mk body)
  | _ => none

/-- The lazy message search of `(.+?)\s*\[([^\]]+)\]$`: the message (reversed
accumulator) grows one character at a time; at each size, the greedy `\s*`
bridge and the bracketed checker are tried. -/
def msgScanGo : List Char → List Char → Option (String × String)
  | msgRev, rem =>
    match
      (let bridge := rem.takeWhile isWS
       match rem.drop bridge.length with
       | '[' :: after =>
         (match bracketTail after with
          | some checker => some (String.mk msgRev.reverse, checker)
          | none => none)
       | _ => none) with
    | some r => some r
    | none =>
      match rem with
      | [] => none
      | c :: rest => if c = '\n' then none else msgScanGo (c :: msgRev) rest

/-- Entry point of the lazy message search: the message group needs at least
one (non-newline) character before the first candidate is tried. -/
def msgStart : List Char → Option (String × String)
  | [] => none
  | c :: rest => if c = '\n' then none else msgScanGo [c] rest

/-- The `\s*(.+?)\s*\[([^\]]+)\]$` tail of the analyzer main pattern:
the leading greedy `\s*` consumes as much as possible and gives characters
back (into the start of the lazy message) only when no match is found. -/
def wsGiveback (l : List Char) : Nat → Option (String × String)
  | 0 => msgStart l
  | b + 1 =>
    match msgStart (l.drop (b + 1)) with
    | some r => some r
    | none => wsGiveback l b

/-- The complete post-severity tail of the analyzer main pattern. -/
def afterSevMsgChecker (l : List Char) : Option (String × String) :=
  wsGiveback l (l.takeWhile isWS).length

/-- The two-number tail of the analyzer main pattern
`(\d+):(\d+):\s*(warning|error|note):\s*(.+?)\s*\[([^\]]+)\]$`; the source
trims the captured message and checker before storing them. -/
def mainTail (l : List Char) : Option AnalysisResult :=
  match lineColNums l with
  | some (ln, col, l4) =>
    match matchSev (l4.dropWhile isWS) with
    | some (sev, l6) =>
      match l6 with
      | ':' :: l7 =>
        match afterSevMsgChecker l7 with
        | some (msg, checker) =>
          some { checker := strTrim checker, line := ln, column := col,
                 message := strTrim msg, severity := sev,
                 category := categorizeChecker (strTrim checker) }
        | none => none
      | _ => none
    | none => none
  | none => none

/-- The two-number tail of the analyzer fallback pattern (no checker name:
the checker is the `unknown` sentinel and the category is `general`). -/
def simpleAnalysisTail (l : List Char) : Option AnalysisResult :=
  match lineColNums l with
  | some (ln, col, l4) =>
    match sevMsg l4 with
    | some (sev, msg) =>
      some { checker := "unknown", line := ln, column := col,
             message := msg, severity := sev, category := "general" }
    | none => none
  | none => none

/-- Parse of one (already trimmed in the loop) analyzer output line: the
main pattern with trailing checker first, then the simplified pattern. -/
def parseAnalysisLine (line : String) : Option AnalysisResult :=
  let t := strTrim line
  if t = "" then none
  else
    match scanFileGroup mainTail t.data with
    | some r => some r
    | none => scanFileGroup simpleAnalysisTail t.data

/-- Body of the line loop of `StaticAnalysisTool.parseAnalysisResults`: a new
match pushes the previously held record (if any) and becomes the held one. -/
def analysisStep (st : Option AnalysisResult × List AnalysisResult)
    (line : String) : Option AnalysisResult × List AnalysisResult :=
  match parseAnalysisLine line with
  | some r =>
    match st.1 with
    | some cur => (some r, st.2 ++ [cur])
    | none => (some r, st.2)
  | none => st

/-- Model of `StaticAnalysisTool.parseAnalysisResults`: stderr and stdout are
joined, split into lines; the loop delays each parsed record until the next
match (or the end) before pushing it, which preserves line order; finally
every message is passed through `sanitizeCompilerOutput`. -/
def parseAnalysisResults (stdout stderr : String) : List AnalysisResult :=
  let combinedOutput := stderr ++ "\n" ++ stdout
  if strTrim combinedOutput = "" then []
  else
    let fin := ((splitOnChar '\n' combinedOutput.data).map String.mk).foldl
      analysisStep (none, [])
    let results :=
      match fin.1 with
      | some cur => fin.2 ++ [cur]
      | none => fin.2
    results.map (fun r =>
      { r with message := OutputSanitizer.sanitizeCompilerOutput r.message })

/-- Model of `StaticAnalysisTool.analyze`.  After a successful execution the
response hardcodes `success: true` — even when `executeClang` reported a
timeout or spawn failure.  Only a thrown error (an environment-creation
failure) takes the `ANALYSIS_ERROR` path. -/
def analyze (o : StaticAnalysisOptions) (uuid : String) (beh : ExecBehavior)
    (fs : FileSystem) : FileSystem × AnalyzeReturn :=
  match validateInputs o with
  | .err m => (fs, .error { code := "VALIDATION_ERROR", message := m })
  | .ok _ =>
    let run := BaseClangTool.executeWithCleanup BaseClangTool.defaultTempDir uuid
      o.sourceCode ((truthyS o.language).getD "c++17")
      (fun workDir sourceFile fsx =>
        (fsx, .ok (BaseClangTool.executeClang
          (buildAnalyzerCommand o sourceFile workDir) beh 60
          (some "Static analysis timed out"))))
      fs
    match run.2 with
    | .ok result =>
      (run.1, .response
        { success := true
          analysisResults := parseAnalysisResults result.stdout result.stderr })
    | .error e => (run.1, .error { code := "ANALYSIS_ERROR", message := e })

end StaticAnalysisTool

/-! ## Theorems -/

namespace InputValidator

/-- An include entry passes both checks of `validateIncludes`. -/
def includeEntryOk (i : String) : Bool :=
  !includeTraversalBad i && includeCharsOk i

lemma validateIncludes_of_all_ok (l : List String)
    (h : ∀ i ∈ l, includeEntryOk i = true) : validateIncludes l = .ok l := by
  induction l with
  | nil => rfl
  | cons i rest ih =>
    have hi := h i (by simp)
    have hrest : validateIncludes rest = .ok rest := ih (fun j hj => h j (by simp [hj]))
    simp only [includeEntryOk, Bool.and_eq_true, Bool.not_eq_true'] at hi
    simp [validateIncludes, hi.1, hi.2, hrest]

lemma validateIncludes_of_first_bad (l : List String) (bad : String)
    (h : l.find? (fun i => !includeEntryOk i) = some bad) :
    validateIncludes l =
      .err (if includeTraversalBad bad
            then "Invalid include path: " ++ bad ++ ". Relative paths and traversal not allowed"
            else "Invalid include path format: " ++ bad) := by
  induction l with
  | nil => simp [List.find?] at h
  | cons i rest ih =>
    by_cases hbad : (!includeEntryOk i) = true
    · simp only [List.find?_cons, hbad] at h
      cases h
      by_cases ht : includeTraversalBad bad = true
      · simp [validateIncludes, ht]
      · have hc : includeCharsOk bad = false := by
          simp only [includeEntryOk, Bool.not_and, Bool.not_not, Bool.or_eq_true,
            Bool.not_eq_true'] at hbad
          rcases hbad with h1 | h1
          · exact absurd h1 ht
          · exact h1
        simp [validateIncludes, ht, hc]
    · have hb2 : (!includeEntryOk i) = false := by simpa using hbad
      simp only [List.find?_cons, hb2] at h
      have hrec := ih h
      have hb3 : includeTraversalBad i = false ∧ includeCharsOk i = true := by
        cases h1 : includeTraversalBad i <;> cases h2 : includeCharsOk i <;>
          simp_all [includeEntryOk]
      simp [validateIncludes, hb3.1, hb3.2, hrec]

lemma validateIncludes_success_iff (l : List String) :
    (validateIncludes l).success = true ↔ ∀ i ∈ l, includeEntryOk i = true := by
  constructor
  · intro h
    by_contra hall
    push_neg at hall
    obtain ⟨i, hi, hbad⟩ := hall
    have hfind : ∃ bad, l.find? (fun i => !includeEntryOk i) = some bad := by
      have : (l.find? (fun i => !includeEntryOk i)).isSome = true := by
        apply List.find?_isSome.mpr
        exact ⟨i, hi, by simp [hbad]⟩
      exact Option.isSome_iff_exists.mp this
    obtain ⟨bad, hb⟩ := hfind
    rw [validateIncludes_of_first_bad l bad hb] at h
    simp [VResult.success] at h
  · intro h
    rw [validateIncludes_of_all_ok l h]
    rfl

/-- Claim C4: an include batch is accepted (unchanged) precisely when every
entry passes the traversal test (no `..`, no `~`, no leading `/`) and the
character-class test; one bad entry rejects the whole batch with the
message naming the first offending entry. -/
theorem validateIncludes_all_or_nothing (includes : List String) :
    ((validateIncludes includes).success = true ↔
      ∀ i ∈ includes, includeTraversalBad i = false ∧ includeCharsOk i = true)
    ∧ (includes.find? (fun i => !includeEntryOk i) = none →
        validateIncludes includes = .ok includes)
    ∧ (∀ bad, includes.find? (fun i => !includeEntryOk i) = some bad →
        validateIncludes includes =
          .err (if includeTraversalBad bad
                then "Invalid include path: " ++ bad ++ ". Relative paths and traversal not allowed"
                else "Invalid include path format: " ++ bad)) := by
  refine ⟨?_, ?_, ?_⟩
  · rw [validateIncludes_success_iff]
    constructor
    · intro h i hi
      have := h i hi
      simp only [includeEntryOk, Bool.and_eq_true, Bool.not_eq_true'] at this
      exact this
    · intro h i hi
      have := h i hi
      simp [includeEntryOk, this.1, this.2]
  · intro h
    apply validateIncludes_of_all_ok
    intro i hi
    by_contra hbad
    have : (includes.find? (fun i => !includeEntryOk i)).isSome = true := by
      apply List.find?_isSome.mpr
      exact ⟨i, hi, by simp [hbad]⟩
    rw [h] at this
    simp at this
  · intro bad h
    exact validateIncludes_of_first_bad includes bad h

/-- Witness for C4 at concrete inputs: a clean batch is accepted unchanged,
and a batch with a traversal entry is rejected naming that entry. -/
theorem validateIncludes_all_or_nothing_witness :
    validateIncludes ["utils", "vendor/include"] = .ok ["utils", "vendor/include"]
    ∧ validateIncludes ["utils", "../etc"] =
        .err "Invalid include path: ../etc. Relative paths and traversal not allowed" := by
  constructor
  · exact (validateIncludes_all_or_nothing ["utils", "vendor/include"]).2.1 (by decide)
  · have h := (validateIncludes_all_or_nothing ["utils", "../etc"]).2.2 "../etc" (by decide)
    rw [h]
    decide

end InputValidator

namespace InputValidator

/-- A single flag as `validateCompilerFlags` accepts it: in the exact
allow-list, or carrying an allowed prefix — where a `-D` flag must pass the
defines validator on its remainder, and a `-I` flag must pass the includes
validator on its remainder unless the remainder is empty (JS falsy), which
is accepted without any re-validation. -/
def flagAccepted (f : String) : Bool :=
  ALLOWED_FLAGS.contains f ||
  (ALLOWED_FLAG_PREFIXES.any (fun p => strStartsWith f p) &&
    (if strStartsWith f "-D" then (validateDefines [strDrop f 2]).success
     else if strStartsWith f "-I" then
       (if strDrop f 2 = "" then true else (validateIncludes [strDrop f 2]).success)
     else true))

/-- The rejection message of `validateCompilerFlags` for a rejected flag. -/
def flagError (f : String) : String :=
  if ALLOWED_FLAG_PREFIXES.any (fun p => strStartsWith f p) then
    if strStartsWith f "-D" then "Invalid define flag: " ++ f
    else "Invalid include flag: " ++ f
  else "Disallowed compiler flag: " ++ f

lemma validateCompilerFlags_cons_eq (f : String) (rest : List String) :
    validateCompilerFlags (f :: rest) =
      (if ALLOWED_FLAGS.contains f then consOk f (validateCompilerFlags rest)
      else if ALLOWED_FLAG_PREFIXES.any (fun p => strStartsWith f p) then
        if strStartsWith f "-D" then
          match validateDefines [strDrop f 2] with
          | .ok _ => consOk f (validateCompilerFlags rest)
          | .err _ => .err ("Invalid define flag: " ++ f)
        else if strStartsWith f "-I" then
          if strDrop f 2 = "" then consOk f (validateCompilerFlags rest)
          else
            match validateIncludes [strDrop f 2] with
            | .ok _ => consOk f (validateCompilerFlags rest)
            | .err _ => .err ("Invalid include flag: " ++ f)
        else consOk f (validateCompilerFlags rest)
      else .err ("Disallowed compiler flag: " ++ f)) := rfl

lemma validateCompilerFlags_of_all_ok (l : List String)
    (h : ∀ f ∈ l, flagAccepted f = true) : validateCompilerFlags l = .ok l := by
  induction l with
  | nil => rfl
  | cons f rest ih =>
    have hf := h f (by simp)
    have hrest : validateCompilerFlags rest = .ok rest :=
      ih (fun g hg => h g (by simp [hg]))
    rw [validateCompilerFlags_cons_eq]
    by_cases hA : ALLOWED_FLAGS.contains f = true
    · rw [if_pos hA, hrest]
      rfl
    · rw [if_neg hA]
      have hAf : ALLOWED_FLAGS.contains f = false := by simpa using hA
      simp only [flagAccepted, hAf, Bool.false_or, Bool.and_eq_true] at hf
      obtain ⟨hP, hrei⟩ := hf
      rw [if_pos hP]
      by_cases hD : strStartsWith f "-D" = true
      · rw [if_pos hD]
        rw [if_pos hD] at hrei
        cases hdef : validateDefines [strDrop f 2] with
        | ok v => simp only [hdef, hrest]; rfl
        | err m => rw [hdef] at hrei; simp [VResult.success] at hrei
      · rw [if_neg hD]
        rw [if_neg hD] at hrei
        by_cases hI : strStartsWith f "-I" = true
        · rw [if_pos hI]
          rw [if_pos hI] at hrei
          by_cases hE : strDrop f 2 = ""
          · rw [if_pos hE, hrest]
            rfl
          · rw [if_neg hE]
            rw [if_neg hE] at hrei
            cases hinc : validateIncludes [strDrop f 2] with
            | ok v => simp only [hinc, hrest]; rfl
            | err m => rw [hinc] at hrei; simp [VResult.success] at hrei
        · rw [if_neg hI, hrest]
          rfl

lemma validateCompilerFlags_of_first_bad (l : List String) (bad : String)
    (h : l.find? (fun f => !flagAccepted f) = some bad) :
    validateCompilerFlags l = .err (flagError bad) := by
  induction l with
  | nil => simp [List.find?] at h
  | cons f rest ih =>
    by_cases hbad : (!flagAccepted f) = true
    · simp only [List.find?_cons, hbad] at h
      cases h
      rw [validateCompilerFlags_cons_eq]
      have hAn : ALLOWED_FLAGS.contains bad = false := by
        cases hA2 : ALLOWED_FLAGS.contains bad <;> simp_all [flagAccepted]
      rw [if_neg (ne_true_of_eq_false hAn)]
      simp only [flagAccepted, hAn, Bool.false_or, Bool.not_eq_true',
        Bool.and_eq_true] at hbad
      by_cases hP : ALLOWED_FLAG_PREFIXES.any (fun p => strStartsWith bad p) = true
      · rw [if_pos hP]
        have hrei : (if strStartsWith bad "-D" = true then
            (validateDefines [strDrop bad 2]).success
          else if strStartsWith bad "-I" = true then
            (if strDrop bad 2 = "" then true else (validateIncludes [strDrop bad 2]).success)
          else true) = false := by
          cases hx : (if strStartsWith bad "-D" = true then
              (validateDefines [strDrop bad 2]).success
            else if strStartsWith bad "-I" = true then
              (if strDrop bad 2 = "" then true else (validateIncludes [strDrop bad 2]).success)
            else true) with
          | false => rfl
          | true => rw [hP, hx] at hbad; simp at hbad
        by_cases hD : strStartsWith bad "-D" = true
        · rw [if_pos hD]
          rw [if_pos hD] at hrei
          cases hdef : validateDefines [strDrop bad 2] with
          | ok v => rw [hdef] at hrei; simp [VResult.success] at hrei
          | err m =>
            simp only [hdef, flagError, hP, if_true, hD]
        · rw [if_neg hD]
          rw [if_neg hD] at hrei
          by_cases hI : strStartsWith bad "-I" = true
          · rw [if_pos hI]
            rw [if_pos hI] at hrei
            by_cases hE : strDrop bad 2 = ""
            · rw [if_pos hE] at hrei; simp at hrei
            · rw [if_neg hE]
              rw [if_neg hE] at hrei
              cases hinc : validateIncludes [strDrop bad 2] with
              | ok v => rw [hinc] at hrei; simp [VResult.success] at hrei
              | err m =>
                simp [hinc, flagError, hP, hD]
          · rw [if_neg hI] at hrei; simp at hrei
      · rw [if_neg hP]
        unfold flagError
        rw [if_neg hP]
    · have hb2 : flagAccepted f = true := by simpa using hbad
      simp only [List.find?_cons, hb2, Bool.not_true] at h
      have hrec := ih h
      rw [validateCompilerFlags_cons_eq]
      by_cases hA : ALLOWED_FLAGS.contains f = true
      · rw [if_pos hA, hrec]
        rfl
      · rw [if_neg hA]
        have hAf : ALLOWED_FLAGS.contains f = false := by simpa using hA
        simp only [flagAccepted, hAf, Bool.false_or, Bool.and_eq_true] at hb2
        obtain ⟨hP, hrei⟩ := hb2
        rw [if_pos hP]
        by_cases hD : strStartsWith f "-D" = true
        · rw [if_pos hD]
          rw [if_pos hD] at hrei
          cases hdef : validateDefines [strDrop f 2] with
          | ok v => simp only [hdef, hrec]; rfl
          | err m => rw [hdef] at hrei; simp [VResult.success] at hrei
        · rw [if_neg hD]
          rw [if_neg hD] at hrei
          by_cases hI : strStartsWith f "-I" = true
          · rw [if_pos hI]
            rw [if_pos hI] at hrei
            by_cases hE : strDrop f 2 = ""
            · rw [if_pos hE, hrec]
              rfl
            · rw [if_neg hE]
              rw [if_neg hE] at hrei
              cases hinc : validateIncludes [strDrop f 2] with
              | ok v => simp only [hinc, hrec]; rfl
              | err m => rw [hinc] at hrei; simp [VResult.success] at hrei
          · rw [if_neg hI, hrec]
            rfl

lemma validateCompilerFlags_success_iff (l : List String) :
    (validateCompilerFlags l).success = true ↔ ∀ f ∈ l, flagAccepted f = true := by
  constructor
  · intro h
    by_contra hall
    push_neg at hall
    obtain ⟨f, hf, hbad⟩ := hall
    have hfind : (l.find? (fun f => !flagAccepted f)).isSome = true := by
      apply List.find?_isSome.mpr
      exact ⟨f, hf, by simp [hbad]⟩
    obtain ⟨bad, hb⟩ := Option.isSome_iff_exists.mp hfind
    rw [validateCompilerFlags_of_first_bad l bad hb] at h
    simp [VResult.success] at h
  · intro h
    rw [validateCompilerFlags_of_all_ok l h]
    rfl

/-- A list contains itself appended to any front part. -/
lemma containsSub_append_self (p s : List Char) : containsSub s (p ++ s) = true := by
  induction p with
  | nil =>
    cases s with
    | nil => simp [containsSub, List.isEmpty]
    | cons c cs =>
      simp only [List.nil_append, containsSub]
      have : List.isPrefixOf (c :: cs) (c :: cs) = true := by
        simp [List.isPrefixOf_iff_prefix]
      rw [this]
      simp
  | cons c cs ihp =>
    simp [containsSub, ihp]

/-- Claim C3, counterexample: the bare flag `-I` is accepted by
`validateCompilerFlags` even though its remainder (the empty string) does
not pass the includes validator — the claim "accepted only if that remainder
passes" is false at this flag. -/
theorem validateCompilerFlags_bare_dash_I_counterexample :
    validateCompilerFlags ["-I"] = .ok ["-I"]
    ∧ validateIncludes [""] = .err "Invalid include path format: "
    ∧ (validateIncludes [""]).success = false := by
  refine ⟨by decide, by decide, by decide⟩

/-- Claim C3 as amended: a flag is accepted iff it is in the exact
allow-list or carries an allowed prefix, where a `-D` flag must pass the
defines validator on its remainder and a `-I` flag with a nonempty remainder
must pass the includes validator (a bare `-I` is accepted without
re-validation); the first rejected flag determines an error message naming
that exact flag. -/
theorem validateCompilerFlags_allowlist (flags : List String) :
    ((validateCompilerFlags flags).success = true ↔ ∀ f ∈ flags, flagAccepted f = true)
    ∧ (flags.find? (fun f => !flagAccepted f) = none →
        validateCompilerFlags flags = .ok flags)
    ∧ (∀ bad, flags.find? (fun f => !flagAccepted f) = some bad →
        validateCompilerFlags flags = .err (flagError bad)
        ∧ containsSub bad.data (flagError bad).data = true) := by
  refine ⟨validateCompilerFlags_success_iff flags, ?_, ?_⟩
  · intro h
    apply validateCompilerFlags_of_all_ok
    intro f hf
    by_contra hbad
    have : (flags.find? (fun f => !flagAccepted f)).isSome = true := by
      apply List.find?_isSome.mpr
      exact ⟨f, hf, by simp [hbad]⟩
    rw [h] at this
    simp at this
  · intro bad h
    refine ⟨validateCompilerFlags_of_first_bad flags bad h, ?_⟩
    have hsub : ∀ pre : String, containsSub bad.data (pre ++ bad).data = true := by
      intro pre
      have := containsSub_append_self pre.data bad.data
      simpa using this
    unfold flagError
    by_cases hP : ALLOWED_FLAG_PREFIXES.any (fun p => strStartsWith bad p) = true
    · rw [if_pos hP]
      by_cases hD : strStartsWith bad "-D" = true
      · rw [if_pos hD]
        exact hsub "Invalid define flag: "
      · rw [if_neg hD]
        exact hsub "Invalid include flag: "
    · rw [if_neg hP]
      exact hsub "Disallowed compiler flag: "

/-- Witness for the amended C3 at concrete inputs: a mixed list of
allow-listed, prefixed, and re-validated flags is accepted unchanged, and a
flag outside the allow-list and prefixes is rejected naming it. -/
theorem validateCompilerFlags_allowlist_witness :
    validateCompilerFlags ["-Wall", "-DFOO=1", "-Iinc/dir", "-lm"] =
      .ok ["-Wall", "-DFOO=1", "-Iinc/dir", "-lm"]
    ∧ validateCompilerFlags ["-O9"] = .err "Disallowed compiler flag: -O9" := by
  constructor
  · exact (validateCompilerFlags_allowlist ["-Wall", "-DFOO=1", "-Iinc/dir", "-lm"]).2.1
      (by decide)
  · have h := (validateCompilerFlags_allowlist ["-O9"]).2.2 "-O9" (by decide)
    rw [h.1]
    decide

end InputValidator

/-! ## Claim C6: timeout validation -/

lemma seqV_ok_iff (x y : VResult Unit) : seqV x y = .ok () ↔ x = .ok () ∧ y = .ok () := by
  cases x with
  | ok v => cases v; simp [seqV]
  | err m => simp [seqV]

lemma seqV_ok_left (y : VResult Unit) : seqV (.ok ()) y = y := rfl

lemma asUnit_success {α : Type} (r : VResult α) : (asUnit r).success = r.success := by
  cases r <;> rfl

/-- Claim C6, counterexample: a compile request carrying the timeout value 0
— a number outside the inclusive range [1,60] — is accepted, because
`if (options.timeout)` treats the JS-falsy 0 as an absent field and skips
`validateTimeout` (which by itself would reject 0). -/
theorem timeout_zero_accepted_counterexample :
    CompilationTool.validateInputs
      { sourceCode := "int main()", language := none, optimization := none,
        warnings := none, defines := none, includes := none, flags := none,
        compileOnly := false, timeout := some 0 } = .ok ()
    ∧ InputValidator.validateTimeout 0 = .err "Timeout must be between 1 and 60 seconds"
    ∧ ¬(1 ≤ (0 : ℚ) ∧ (0 : ℚ) ≤ 60) := by
  refine ⟨by decide, by decide, by decide⟩

/-- Claim C6 as amended: `validateTimeout` accepts exactly the numbers in
the inclusive range [1,60] and otherwise rejects with the message stating
the exact bounds; at the request level, when the rest of the request is
valid, a supplied timeout `t` is accepted iff `t ∈ [1,60]` or `t = 0`
(the JS-falsy 0 skips the check and the default is used instead). -/
theorem validateTimeout_range (t : ℚ) :
    ((InputValidator.validateTimeout t).success = true ↔ 1 ≤ t ∧ t ≤ 60)
    ∧ (¬(1 ≤ t ∧ t ≤ 60) →
        InputValidator.validateTimeout t = .err "Timeout must be between 1 and 60 seconds")
    ∧ (∀ o : CompilationTool.CompilationOptions, o.timeout = some t →
        CompilationTool.validateInputs { o with timeout := none } = .ok () →
        ((CompilationTool.validateInputs o).success = true ↔ (1 ≤ t ∧ t ≤ 60) ∨ t = 0)) := by
  have hiff : (InputValidator.validateTimeout t).success = true ↔ 1 ≤ t ∧ t ≤ 60 := by
    by_cases hr : t < 1 ∨ t > 60
    · simp only [InputValidator.validateTimeout, if_pos hr, VResult.success]
      constructor
      · intro hfalse; cases hfalse
      · intro hrange
        rcases hr with h1 | h1
        · exact absurd hrange.1 (not_le.mpr h1)
        · exact absurd hrange.2 (not_le.mpr h1)
    · simp only [InputValidator.validateTimeout, if_neg hr, VResult.success]
      push_neg at hr
      simp [hr.1, hr.2]
  refine ⟨hiff, ?_, ?_⟩
  · intro hout
    have hr : t < 1 ∨ t > 60 := by
      by_contra hcon
      push_neg at hcon
      exact hout ⟨hcon.1, hcon.2⟩
    simp only [InputValidator.validateTimeout, if_pos hr]
  · intro o ht h0
    unfold CompilationTool.validateInputs at h0 ⊢
    simp only at h0
    obtain ⟨hA, h0⟩ := (seqV_ok_iff _ _).mp h0
    obtain ⟨hB, h0⟩ := (seqV_ok_iff _ _).mp h0
    obtain ⟨hC, h0⟩ := (seqV_ok_iff _ _).mp h0
    obtain ⟨hD, h0⟩ := (seqV_ok_iff _ _).mp h0
    obtain ⟨hE, h0⟩ := (seqV_ok_iff _ _).mp h0
    obtain ⟨hF, h0⟩ := (seqV_ok_iff _ _).mp h0
    obtain ⟨hG, _⟩ := (seqV_ok_iff _ _).mp h0
    rw [hA, seqV_ok_left, hB, seqV_ok_left, hC, seqV_ok_left, hD, seqV_ok_left,
      hE, seqV_ok_left, hF, seqV_ok_left, hG, seqV_ok_left, ht]
    by_cases h0t : t = 0
    · subst h0t
      simp [truthyQ, checkOpt, VResult.success]
    · simp only [truthyQ, if_neg h0t, checkOpt, asUnit_success]
      rw [hiff]
      simp [h0t]

/-- Witness for the amended C6: with an otherwise-valid request, timeout 61
is rejected (it is outside [1,60] and nonzero) and timeout 30 is accepted. -/
theorem validateTimeout_range_witness :
    ((CompilationTool.validateInputs
        { sourceCode := "int main()", language := none, optimization := none,
          warnings := none, defines := none, includes := none, flags := none,
          compileOnly := false, timeout := some 61 }).success = true ↔
      (1 ≤ (61 : ℚ) ∧ (61 : ℚ) ≤ 60) ∨ (61 : ℚ) = 0)
    ∧ (CompilationTool.validateInputs
        { sourceCode := "int main()", language := none, optimization := none,
          warnings := none, defines := none, includes := none, flags := none,
          compileOnly := false, timeout := some 61 }).success = false
    ∧ InputValidator.validateTimeout 61 = .err "Timeout must be between 1 and 60 seconds" := by
  refine ⟨?_, by decide, ?_⟩
  · exact (validateTimeout_range 61).2.2
      { sourceCode := "int main()", language := none, optimization := none,
        warnings := none, defines := none, includes := none, flags := none,
        compileOnly := false, timeout := some 61 } rfl (by decide)
  · exact (validateTimeout_range 61).2.1 (by decide)

/-! ## Claim C7: source-text size validation -/

/-- UTF-8 encoded width of one character (for the byte reading of the
claim). -/
def charUtf8Bytes (c : Char) : Nat :=
  if c.toNat < 128 then 1
  else if c.toNat < 2048 then 2
  else if c.toNat < 65536 then 3
  else 4

/-- Modelled from the spec wording of C7 ("1,048,576 bytes"): the UTF-8
byte size of a text.  The source code itself never computes this — it
checks `source.length`, the UTF-16 code-unit count. -/
def specByteSize (s : String) : Nat :=
  (s.data.map charUtf8Bytes).sum

lemma utf16Count_replicate (n : Nat) (c : Char) :
    utf16Count (List.replicate n c) = n * utf16Width c := by
  induction n with
  | zero => simp [utf16Count]
  | succ m ih => simp [List.replicate, utf16Count, ih, Nat.succ_mul]; ring

lemma specByteSize_replicate (n : Nat) (c : Char) :
    (List.map charUtf8Bytes (List.replicate n c)).sum = n * charUtf8Bytes c := by
  induction n with
  | zero => simp
  | succ m ih => simp [List.replicate, ih, Nat.succ_mul]; ring

/-- Claim C7, counterexample: a source text of 600,000 two-byte characters
(1,200,000 bytes, above the claimed 1,048,576-byte limit) is accepted,
because the validator compares `source.length` — the UTF-16 code-unit
count, 600,000 — against the limit, not the byte size. -/
theorem validateSourceCode_bytes_counterexample :
    (InputValidator.validateSourceCode (String.mk (List.replicate 600000 'é'))).success = true
    ∧ specByteSize (String.mk (List.replicate 600000 'é')) > 1048576 := by
  have hlen : utf16Count (String.mk (List.replicate 600000 'é')).data = 600000 := by
    show utf16Count (List.replicate 600000 'é') = 600000
    rw [utf16Count_replicate]
    decide
  constructor
  · unfold InputValidator.validateSourceCode
    rw [hlen]
    norm_num [InputValidator.MAX_SOURCE_SIZE, VResult.success]
  · show (List.map charUtf8Bytes (List.replicate 600000 'é')).sum > 1048576
    rw [specByteSize_replicate]
    decide

/-- Claim C7 as amended: a source text is accepted iff its length in UTF-16
code units (what JS `source.length` measures — not its encoded byte size)
is between 1 and 1,048,576; the empty text is rejected with a message
naming "empty", an oversized text with a message stating the limit; the
dangerous-pattern scan never influences acceptance. -/
theorem validateSourceCode_length_range (s : String) :
    ((InputValidator.validateSourceCode s).success = true ↔
      1 ≤ utf16Count s.data ∧ utf16Count s.data ≤ InputValidator.MAX_SOURCE_SIZE)
    ∧ (utf16Count s.data = 0 →
        InputValidator.validateSourceCode s = .err "Source code cannot be empty"
        ∧ InputValidator.containsSub "empty".data "Source code cannot be empty".data = true)
    ∧ (utf16Count s.data > InputValidator.MAX_SOURCE_SIZE →
        InputValidator.validateSourceCode s =
          .err ("Source code exceeds maximum size of " ++ toString InputValidator.MAX_SOURCE_SIZE ++ " bytes")
        ∧ InputValidator.containsSub "1048576".data
            ("Source code exceeds maximum size of " ++ toString InputValidator.MAX_SOURCE_SIZE ++ " bytes").data = true)
    ∧ (InputValidator.hasDangerousPattern s = true →
        ((InputValidator.validateSourceCode s).success = true ↔
          1 ≤ utf16Count s.data ∧ utf16Count s.data ≤ InputValidator.MAX_SOURCE_SIZE)) := by
  have hiff : (InputValidator.validateSourceCode s).success = true ↔
      1 ≤ utf16Count s.data ∧ utf16Count s.data ≤ InputValidator.MAX_SOURCE_SIZE := by
    unfold InputValidator.validateSourceCode
    by_cases h0 : utf16Count s.data = 0
    · simp [h0, VResult.success]
    · rw [if_neg h0]
      by_cases hbig : utf16Count s.data > InputValidator.MAX_SOURCE_SIZE
      · rw [if_pos hbig]
        simp only [VResult.success]
        constructor
        · intro h; cases h
        · intro hr; omega
      · rw [if_neg hbig]
        simp only [VResult.success, true_iff]
        omega
  refine ⟨hiff, ?_, ?_, fun _ => hiff⟩
  · intro h0
    refine ⟨?_, by decide⟩
    unfold InputValidator.validateSourceCode
    rw [if_pos h0]
  · intro hbig
    have h0 : ¬(utf16Count s.data = 0) := by omega
    refine ⟨?_, by decide⟩
    unfold InputValidator.validateSourceCode
    rw [if_neg h0, if_pos hbig]

/-- Witness for the amended C7: the empty text is rejected naming "empty",
and a small nonempty text is accepted. -/
theorem validateSourceCode_length_range_witness :
    InputValidator.validateSourceCode "" = .err "Source code cannot be empty"
    ∧ (InputValidator.validateSourceCode "int main()").success = true := by
  constructor
  · exact ((validateSourceCode_length_range "").2.1 (by decide)).1
  · exact (validateSourceCode_length_range "int main()").1.mpr (by decide)

/-! ## Claim C2: command-builder invariants -/

lemma ne_dashO_of_get1 (s : String) (c : Char) (hget : s.data.get? 1 = some c)
    (hc : c ≠ 'o') : s ≠ "-o" := by
  intro he
  rw [he] at hget
  have h2 : some 'o' = some c := hget
  exact hc (Option.some.inj h2).symm

lemma warningFlags_not_dashO (w : Option String) :
    ∀ x ∈ CompilationTool.warningFlags w, x ≠ "-o" := by
  cases w with
  | none => decide
  | some s =>
    simp only [CompilationTool.warningFlags]
    split
    · decide
    · split
      · decide
      · split
        · decide
        · split
          · decide
          · split
            · decide
            · simp

lemma validateOptimizationLevel_ok_mem (opt v : String)
    (h : InputValidator.validateOptimizationLevel opt = .ok v) :
    InputValidator.validOptLevels.contains opt = true := by
  by_contra hq
  have hqf : InputValidator.validOptLevels.contains opt = false := by simpa using hq
  unfold InputValidator.validateOptimizationLevel at h
  rw [if_neg (ne_true_of_eq_false hqf)] at h
  cases h

lemma getLast?_append_three {α : Type} (l : List α) (a b c : α) :
    (l ++ [a, b, c]).getLast? = some c := by
  rw [show l ++ [a, b, c] = (l ++ [a, b]) ++ [c] by simp]
  exact List.getLast?_concat _

/-- Claim C2: for every compilation request accepted by the validator, the
built argument vector ends with the source file path, and decomposes as a
prefix containing no `-o`, followed by `-o`, an output path joined from the
managed working directory, and the source file — so the output path is
always derived from `workDir` and never from a caller-supplied field, and
no user input can occupy the final position. -/
theorem buildCompilerCommand_output_invariants (o : CompilationTool.CompilationOptions)
    (sourceFile workDir : String)
    (h : CompilationTool.validateInputs o = .ok ()) :
    (CompilationTool.buildCompilerCommand o sourceFile workDir).getLast? = some sourceFile
    ∧ ∃ pre, CompilationTool.buildCompilerCommand o sourceFile workDir =
        pre ++ ["-o", joinPath workDir (if o.compileOnly then "main.o" else "main"), sourceFile]
      ∧ "-o" ∉ pre := by
  unfold CompilationTool.validateInputs at h
  obtain ⟨hA, h⟩ := (seqV_ok_iff _ _).mp h
  obtain ⟨hB, h⟩ := (seqV_ok_iff _ _).mp h
  obtain ⟨hC, h⟩ := (seqV_ok_iff _ _).mp h
  obtain ⟨hD, h⟩ := (seqV_ok_iff _ _).mp h
  obtain ⟨hE, h⟩ := (seqV_ok_iff _ _).mp h
  obtain ⟨hF, h⟩ := (seqV_ok_iff _ _).mp h
  obtain ⟨hG, hH⟩ := (seqV_ok_iff _ _).mp h
  have hex : ∃ pre, CompilationTool.buildCompilerCommand o sourceFile workDir =
      pre ++ ["-o", joinPath workDir (if o.compileOnly then "main.o" else "main"), sourceFile]
      ∧ "-o" ∉ pre := by
    refine ⟨_, rfl, ?_⟩
    intro hmem
    simp only [List.mem_append] at hmem
    rcases hmem with ((((((((hm | hm) | hm) | hm) | hm) | hm) | hm) | hm) | hm)
    · exact absurd hm (by decide)
    · cases hL : truthyS o.language with
      | none => simp only [hL] at hm; simp at hm
      | some lang =>
        simp only [hL] at hm
        simp only [List.mem_singleton] at hm
        exact ne_dashO_of_get1 ("-std=" ++ lang) 's' rfl (by decide) hm.symm
    · cases hO : truthyS o.optimization with
      | none => simp only [hO] at hm; exact absurd hm (by decide)
      | some opt =>
        simp only [hO] at hm
        rw [hO] at hC
        have hC2 : asUnit (InputValidator.validateOptimizationLevel opt) = .ok () := hC
        cases hvv : InputValidator.validateOptimizationLevel opt with
        | err m => rw [hvv] at hC2; simp [asUnit] at hC2
        | ok v =>
          have hmem2 : opt ∈ InputValidator.validOptLevels := by
            simpa using validateOptimizationLevel_ok_mem opt v hvv
          fin_cases hmem2 <;> exact absurd hm (by decide)
    · exact absurd hm (by decide)
    · exact warningFlags_not_dashO (truthyS o.warnings) "-o" hm rfl
    · cases hDs : o.defines with
      | none => simp only [hDs] at hm; simp at hm
      | some ds =>
        simp only [hDs, List.mem_map] at hm
        obtain ⟨d, _, hdm⟩ := hm
        exact ne_dashO_of_get1 ("-D" ++ d) 'D' rfl (by decide) hdm
    · cases hIs : o.includes with
      | none => simp only [hIs] at hm; simp at hm
      | some incs =>
        simp only [hIs, List.mem_map] at hm
        obtain ⟨i, _, him⟩ := hm
        exact ne_dashO_of_get1 ("-I" ++ i) 'I' rfl (by decide) him
    · cases hFs : o.flags with
      | none => simp only [hFs] at hm; simp at hm
      | some fl =>
        simp only [hFs] at hm
        rw [hFs] at hG
        have hG2 : asUnit (InputValidator.validateCompilerFlags fl) = .ok () := hG
        have hsuc : (InputValidator.validateCompilerFlags fl).success = true := by
          cases hvv : InputValidator.validateCompilerFlags fl with
          | ok v => rfl
          | err m => rw [hvv] at hG2; simp [asUnit] at hG2
        have hall := (InputValidator.validateCompilerFlags_success_iff fl).mp hsuc
        have h1 := hall "-o" hm
        rw [show InputValidator.flagAccepted "-o" = false from by decide] at h1
        simp at h1
    · cases hco : o.compileOnly with
      | true => simp only [hco] at hm; exact absurd hm (by decide)
      | false => simp only [hco] at hm; simp at hm
  obtain ⟨pre, hpre, hno⟩ := hex
  refine ⟨?_, ⟨pre, hpre, hno⟩⟩
  rw [hpre]
  exact getLast?_append_three pre _ _ _

/-- Witness for C2 at a concrete validated request, working directory and
source path. -/
theorem buildCompilerCommand_output_invariants_witness :
    (CompilationTool.buildCompilerCommand
      { sourceCode := "int main()", language := some "c++17", optimization := some "O2",
        warnings := some "all", defines := some ["FOO=1"], includes := some ["inc"],
        flags := some ["-Wall"], compileOnly := false, timeout := some 30 }
      "/tmp/mcp-compilation/u1/source.cpp" "/tmp/mcp-compilation/u1").getLast? =
      some "/tmp/mcp-compilation/u1/source.cpp"
    ∧ ∃ pre, CompilationTool.buildCompilerCommand
      { sourceCode := "int main()", language := some "c++17", optimization := some "O2",
        warnings := some "all", defines := some ["FOO=1"], includes := some ["inc"],
        flags := some ["-Wall"], compileOnly := false, timeout := some 30 }
      "/tmp/mcp-compilation/u1/source.cpp" "/tmp/mcp-compilation/u1" =
        pre ++ ["-o", joinPath "/tmp/mcp-compilation/u1" (if false then "main.o" else "main"),
          "/tmp/mcp-compilation/u1/source.cpp"]
      ∧ "-o" ∉ pre :=
  buildCompilerCommand_output_invariants _ _ _ (by decide)

/-! ## Claim C1: working-directory cleanup -/

/-- A filesystem state in which writing the source file into the freshly
created working directory fails (`fs.writeFile` rejects). -/
def failingWriteFS : FileSystem :=
  { dirs := [], files := [],
    failingWrites := ["/tmp/mcp-compilation/u1/source.cpp"], failingMkdirs := [] }

/-- An operation standing for a normally-completing tool run. -/
def trivialClangOp : String → String → FileSystem → FileSystem × Except String ClangExecutionResult :=
  fun _ _ fsx => (fsx, .ok { success := true, exitCode := 0, stdout := "", stderr := "" })

/-- Claim C1, counterexample: when the source-file write fails after the
working directory has been created, `executeWithCleanup` propagates the
error before entering its `try`/`finally`, so this internal-error exit path
leaves the working directory behind. -/
theorem executeWithCleanup_leaks_on_write_failure :
    "/tmp/mcp-compilation/u1" ∈
      (BaseClangTool.executeWithCleanup "/tmp/mcp-compilation" "u1" "int main()" "c++17"
        trivialClangOp failingWriteFS).1.dirs
    ∧ (BaseClangTool.executeWithCleanup "/tmp/mcp-compilation" "u1" "int main()" "c++17"
        trivialClangOp failingWriteFS).2 = .error "writeFile failed" := by
  exact ⟨by decide, rfl⟩

/-- Claim C1 as amended: for every request whose working environment is
fully created (the `mkdir` and the source-file write both succeed), the
working directory and everything under it are removed from the final
filesystem state on every exit path of the operation — normal completion,
tool failure and timeout (operation results), and thrown errors alike.
If the source-file write fails after the directory was created, the
directory is leaked (see the counterexample). -/
theorem executeWithCleanup_removes_workdir {α : Type}
    (tempDir uuid sourceCode language : String)
    (operation : String → String → FileSystem → FileSystem × Except String α)
    (fs : FileSystem)
    (hmk : fs.failingMkdirs.contains (joinPath tempDir uuid) = false)
    (hwr : fs.failingWrites.contains
      (joinPath (joinPath tempDir uuid)
        ("source." ++ BaseClangTool.getFileExtension language)) = false) :
    joinPath tempDir uuid ∉
      (BaseClangTool.executeWithCleanup tempDir uuid sourceCode language operation fs).1.dirs
    ∧ ∀ p ∈ (BaseClangTool.executeWithCleanup tempDir uuid sourceCode language operation fs).1.files,
        (joinPath tempDir uuid ++ "/").data.isPrefixOf p.1.data = false := by
  have hcreate : BaseClangTool.createWorkEnvironment tempDir uuid sourceCode language fs =
      ({ fs with
          dirs := fs.dirs ++ [joinPath tempDir uuid],
          files := fs.files ++
            [(joinPath (joinPath tempDir uuid)
                ("source." ++ BaseClangTool.getFileExtension language), sourceCode)] },
        .ok (joinPath tempDir uuid,
          joinPath (joinPath tempDir uuid)
            ("source." ++ BaseClangTool.getFileExtension language))) := by
    unfold BaseClangTool.createWorkEnvironment
    rw [if_neg (ne_true_of_eq_false hmk), if_neg (ne_true_of_eq_false hwr)]
  unfold BaseClangTool.executeWithCleanup
  rw [hcreate]
  constructor
  · intro hmem
    have := List.of_mem_filter hmem
    simp at this
  · intro p hp
    have := List.of_mem_filter hp
    simpa using this

/-- Witness for the amended C1: with a clean filesystem and a
normally-completing operation, the working directory is gone afterwards. -/
theorem executeWithCleanup_removes_workdir_witness :
    "/tmp/mcp-compilation/u1" ∉
      (BaseClangTool.executeWithCleanup "/tmp/mcp-compilation" "u1" "int main()" "c++17"
        trivialClangOp
        { dirs := [], files := [], failingWrites := [], failingMkdirs := [] }).1.dirs
    ∧ ∀ p ∈ (BaseClangTool.executeWithCleanup "/tmp/mcp-compilation" "u1" "int main()" "c++17"
        trivialClangOp
        { dirs := [], files := [], failingWrites := [], failingMkdirs := [] }).1.files,
        ("/tmp/mcp-compilation/u1" ++ "/").data.isPrefixOf p.1.data = false := by
  have h := executeWithCleanup_removes_workdir "/tmp/mcp-compilation" "u1" "int main()" "c++17"
    trivialClangOp
    { dirs := [], files := [], failingWrites := [], failingMkdirs := [] }
    (by decide) (by decide)
  exact h

/-! ## Claim C5: reporting of execution failures and timeouts -/

/-- Shared reduction: a successful environment creation. -/
lemma createWorkEnvironment_ok (tempDir uuid sourceCode language : String) (fs : FileSystem)
    (hmk : fs.failingMkdirs.contains (joinPath tempDir uuid) = false)
    (hwr : fs.failingWrites.contains
      (joinPath (joinPath tempDir uuid)
        ("source." ++ BaseClangTool.getFileExtension language)) = false) :
    BaseClangTool.createWorkEnvironment tempDir uuid sourceCode language fs =
      ({ fs with
          dirs := fs.dirs ++ [joinPath tempDir uuid],
          files := fs.files ++
            [(joinPath (joinPath tempDir uuid)
                ("source." ++ BaseClangTool.getFileExtension language), sourceCode)] },
        .ok (joinPath tempDir uuid,
          joinPath (joinPath tempDir uuid)
            ("source." ++ BaseClangTool.getFileExtension language))) := by
  unfold BaseClangTool.createWorkEnvironment
  rw [if_neg (ne_true_of_eq_false hmk), if_neg (ne_true_of_eq_false hwr)]

/-- A minimal valid analysis request. -/
def minimalAnalysisOptions : StaticAnalysisTool.StaticAnalysisOptions :=
  { sourceCode := "int main()", language := none, checkers := none,
    defines := none, includes := none }

/-- A minimal valid compile request. -/
def minimalCompileOptions : CompilationTool.CompilationOptions :=
  { sourceCode := "int main()", language := none, optimization := none,
    warnings := none, defines := none, includes := none, flags := none,
    compileOnly := false, timeout := none }

/-- A child process whose wall-clock timer fires. -/
def timeoutBehavior : ExecBehavior :=
  { stdout := "", stderr := "", outcome := .timeout }

/-- An empty, failure-free filesystem. -/
def cleanFS : FileSystem :=
  { dirs := [], files := [], failingWrites := [], failingMkdirs := [] }

/-- Claim C5, counterexample: a request whose native-tool execution times
out does not produce a Failure response tagged with an execution-error
kind — `analyze` returns its success-shaped response with `success := true`,
and `compile` returns its success-shaped response (with `success := false`,
`exitCode := -1`), in both cases the `response` member of the union, not
the `error` member. -/
theorem timeout_not_execution_error_counterexample :
    (StaticAnalysisTool.analyze minimalAnalysisOptions "u1" timeoutBehavior cleanFS).2 =
      .response { success := true, analysisResults := [] }
    ∧ ∃ r, (CompilationTool.compile minimalCompileOptions "u1" timeoutBehavior cleanFS).2 =
        .response r ∧ r.success = false ∧ r.exitCode = -1 := by
  exact ⟨rfl, ⟨_, rfl, rfl, rfl⟩⟩

/-- Claim C5 as amended: `executeClang` never rejects — a timeout (or spawn
failure) resolves in-band with `success := false`, `exitCode := -1` and the
timeout marker appended to stderr, which is distinct from every normal
process exit (whose code is ≥ 0); the facades then return their
success-shaped responses — `compile` with `success := false` and
`exitCode := -1`, `analyze` even with `success := true` — and a Failure
tagged with an error kind arises only from a thrown environment error. -/
theorem executionFailure_reported_inband :
    (∀ (cmd : List String) (stdout stderr : String) (tmo : ℚ) (msg : String),
      (BaseClangTool.executeClang cmd
          { stdout := stdout, stderr := stderr, outcome := .timeout } tmo (some msg)).success = false
      ∧ (BaseClangTool.executeClang cmd
          { stdout := stdout, stderr := stderr, outcome := .timeout } tmo (some msg)).exitCode = -1
      ∧ (BaseClangTool.executeClang cmd
          { stdout := stdout, stderr := stderr, outcome := .timeout } tmo (some msg)).stderr =
          stderr ++ "\n" ++ msg)
    ∧ (∀ (cmd : List String) (beh : ExecBehavior) (tmo : ℚ) (tmsg : Option String) (n : Int),
        beh.outcome = .closed (some n) → 0 ≤ n →
        (BaseClangTool.executeClang cmd beh tmo tmsg).exitCode = n
        ∧ (BaseClangTool.executeClang cmd beh tmo tmsg).exitCode ≠ -1)
    ∧ (∀ (o : StaticAnalysisTool.StaticAnalysisOptions) (uuid : String) (beh : ExecBehavior)
          (fs : FileSystem),
        StaticAnalysisTool.validateInputs o = .ok () →
        fs.failingMkdirs.contains (joinPath BaseClangTool.defaultTempDir uuid) = false →
        fs.failingWrites.contains
          (joinPath (joinPath BaseClangTool.defaultTempDir uuid)
            ("source." ++ BaseClangTool.getFileExtension ((truthyS o.language).getD "c++17"))) = false →
        ∃ r, (StaticAnalysisTool.analyze o uuid beh fs).2 = .response r ∧ r.success = true)
    ∧ (∀ (o : CompilationTool.CompilationOptions) (uuid : String) (fs : FileSystem)
          (stdout stderr : String),
        CompilationTool.validateInputs o = .ok () →
        fs.failingMkdirs.contains (joinPath BaseClangTool.defaultTempDir uuid) = false →
        fs.failingWrites.contains
          (joinPath (joinPath BaseClangTool.defaultTempDir uuid)
            ("source." ++ BaseClangTool.getFileExtension ((truthyS o.language).getD "c++17"))) = false →
        ∃ r, (CompilationTool.compile o uuid
            { stdout := stdout, stderr := stderr, outcome := .timeout } fs).2 = .response r
          ∧ r.success = false ∧ r.exitCode = -1) := by
  refine ⟨?_, ?_, ?_, ?_⟩
  · intro cmd stdout stderr tmo msg
    exact ⟨rfl, rfl, rfl⟩
  · intro cmd beh tmo tmsg n hout hn
    have he : (BaseClangTool.executeClang cmd beh tmo tmsg).exitCode = n := by
      unfold BaseClangTool.executeClang
      rw [hout]
    refine ⟨he, ?_⟩
    rw [he]
    omega
  · intro o uuid beh fs hval hmk hwr
    unfold StaticAnalysisTool.analyze
    rw [hval]
    unfold BaseClangTool.executeWithCleanup
    rw [createWorkEnvironment_ok _ _ _ _ _ hmk hwr]
    exact ⟨_, rfl, rfl⟩
  · intro o uuid fs stdout stderr hval hmk hwr
    unfold CompilationTool.compile
    rw [hval]
    unfold BaseClangTool.executeWithCleanup
    rw [createWorkEnvironment_ok _ _ _ _ _ hmk hwr]
    exact ⟨_, rfl, rfl, rfl⟩

/-- Witness for the amended C5 at concrete inputs. -/
theorem executionFailure_reported_inband_witness :
    ((BaseClangTool.executeClang ["clang++"]
        { stdout := "", stderr := "e", outcome := .timeout } 30 (some "Compilation timed out")).success = false
      ∧ (BaseClangTool.executeClang ["clang++"]
        { stdout := "", stderr := "e", outcome := .timeout } 30 (some "Compilation timed out")).exitCode = -1
      ∧ (BaseClangTool.executeClang ["clang++"]
        { stdout := "", stderr := "e", outcome := .timeout } 30 (some "Compilation timed out")).stderr =
          "e" ++ "\n" ++ "Compilation timed out")
    ∧ ∃ r, (StaticAnalysisTool.analyze minimalAnalysisOptions "u1" timeoutBehavior cleanFS).2 =
        .response r ∧ r.success = true := by
  constructor
  · exact executionFailure_reported_inband.1 ["clang++"] "" "e" 30 "Compilation timed out"
  · exact executionFailure_reported_inband.2.2.1 minimalAnalysisOptions "u1" timeoutBehavior cleanFS
      (by decide) (by decide) (by decide)

/- ## Claim C9 — emission order of the parsed diagnostic records -/

/-- The diagnostic records of a stderr text in the native tool's emission
order: one order-preserving pass over the split lines, keeping the
parseable ones. -/
def emittedDiagnostics (stderr : String) : List DiagnosticMessage :=
  ((splitOnChar '\n' stderr.data).map String.mk).filterMap
    CompilationTool.parseDiagnosticLine

/-- The analysis findings of the combined stderr/stdout text in the native
tool's emission order. -/
def emittedFindings (stdout stderr : String) : List StaticAnalysisTool.AnalysisResult :=
  ((splitOnChar '\n' (stderr ++ "\n" ++ stdout).data).map String.mk).filterMap
    StaticAnalysisTool.parseAnalysisLine

lemma sevNe1 : ("error" : String) ≠ "warning" := by decide

lemma sevNe2 : ("error" : String) ≠ "note" := by decide

lemma sevNe3 : ("warning" : String) ≠ "error" := by decide

lemma sevNe4 : ("warning" : String) ≠ "note" := by decide

lemma sevNe5 : ("note" : String) ≠ "error" := by decide

lemma sevNe6 : ("note" : String) ≠ "warning" := by decide

lemma diag_foldl (lines : List String) (acc : CompilationDiagnostics) :
    lines.foldl CompilationTool.diagStep acc =
      { errors := acc.errors ++
          (lines.filterMap CompilationTool.parseDiagnosticLine).filter
            (fun d => decide (d.severity = "error")),
        warnings := acc.warnings ++
          (lines.filterMap CompilationTool.parseDiagnosticLine).filter
            (fun d => decide (d.severity = "warning")),
        notes := acc.notes ++
          (lines.filterMap CompilationTool.parseDiagnosticLine).filter
            (fun d => decide (d.severity = "note")) } := by
  induction lines generalizing acc with
  | nil => simp
  | cons l rest ih =>
    rw [List.foldl_cons, ih]
    cases hd : CompilationTool.parseDiagnosticLine l with
    | none => simp [CompilationTool.diagStep, hd]
    | some d =>
      by_cases he : d.severity = "error"
      · simp [CompilationTool.diagStep, hd, he, sevNe1, sevNe2]
      · by_cases hw : d.severity = "warning"
        · simp [CompilationTool.diagStep, hd, he, hw, sevNe3, sevNe4]
        · by_cases hn : d.severity = "note"
          · simp [CompilationTool.diagStep, hd, he, hw, hn, sevNe5, sevNe6]
          · simp [CompilationTool.diagStep, hd, he, hw, hn]

lemma all_ws_of_trimChars_nil (l : List Char) (h : trimChars l = []) :
    ∀ c ∈ l, isWS c = true := by
  have h2 : (l.dropWhile isWS).reverse.dropWhile isWS = [] := by
    have h1 := congrArg List.reverse h
    simpa [trimChars] using h1
  have h4 : ∀ c ∈ l.dropWhile isWS, isWS c = true := by
    intro c hc
    exact List.dropWhile_eq_nil_iff.mp h2 c (List.mem_reverse.mpr hc)
  intro c hc
  rw [← List.takeWhile_append_dropWhile (p := isWS) (l := l)] at hc
  rcases List.mem_append.mp hc with h5 | h5
  · exact List.mem_takeWhile_imp h5
  · exact h4 c h5

lemma trimChars_nil_of_all_ws (l : List Char) (h : ∀ c ∈ l, isWS c = true) :
    trimChars l = [] := by
  have h1 : l.dropWhile isWS = [] := List.dropWhile_eq_nil_iff.mpr h
  simp [trimChars, h1]

lemma splitOnChar_ne_nil (sep : Char) (l : List Char) : splitOnChar sep l ≠ [] := by
  cases l with
  | nil => simp [splitOnChar]
  | cons c cs =>
    by_cases h : c = sep
    · simp [splitOnChar, h]
    · simp only [splitOnChar, if_neg h]
      cases splitOnChar sep cs <;> simp

lemma mem_of_mem_splitOnChar (sep : Char) (l : List Char) :
    ∀ piece ∈ splitOnChar sep l, ∀ c ∈ piece, c ∈ l := by
  induction l with
  | nil =>
    intro piece hp c hc
    simp [splitOnChar] at hp
    subst hp
    simp at hc
  | cons a as ih =>
    intro piece hp c hc
    by_cases h : a = sep
    · rw [show splitOnChar sep (a :: as) = [] :: splitOnChar sep as by
        simp [splitOnChar, h]] at hp
      rcases List.mem_cons.mp hp with h1 | h1
      · subst h1
        simp at hc
      · exact List.mem_cons_of_mem a (ih piece h1 c hc)
    · rcases hx : splitOnChar sep as with _ | ⟨hh, tt⟩
      · exact absurd hx (splitOnChar_ne_nil sep as)
      · rw [show splitOnChar sep (a :: as) = (a :: hh) :: tt by
          simp [splitOnChar, h, hx]] at hp
        rcases List.mem_cons.mp hp with h1 | h1
        · subst h1
          rcases List.mem_cons.mp hc with h2 | h2
          · rw [h2]
            exact List.mem_cons_self a as
          · refine List.mem_cons_of_mem a (ih hh ?_ c h2)
            rw [hx]
            exact List.mem_cons_self hh tt
        · refine List.mem_cons_of_mem a (ih piece ?_ c hc)
          rw [hx]
          exact List.mem_cons_of_mem hh h1

lemma parseAnalysisLine_ws_none (line : String)
    (h : ∀ c ∈ line.data, isWS c = true) :
    StaticAnalysisTool.parseAnalysisLine line = none := by
  have ht : strTrim line = "" := by
    rw [strTrim, trimChars_nil_of_all_ws line.data h]
  simp [StaticAnalysisTool.parseAnalysisLine, ht]

lemma analysis_foldl (lines : List String)
    (st : Option StaticAnalysisTool.AnalysisResult ×
      List StaticAnalysisTool.AnalysisResult) :
    (lines.foldl StaticAnalysisTool.analysisStep st).2 ++
        (lines.foldl StaticAnalysisTool.analysisStep st).1.toList =
      st.2 ++ st.1.toList ++
        lines.filterMap StaticAnalysisTool.parseAnalysisLine := by
  induction lines generalizing st with
  | nil => simp
  | cons l rest ih =>
    rw [List.foldl_cons, ih]
    cases hp : StaticAnalysisTool.parseAnalysisLine l with
    | none => simp [StaticAnalysisTool.analysisStep, hp]
    | some r =>
      cases hs : st.1 with
      | none => simp [StaticAnalysisTool.analysisStep, hp, hs]
      | some cur => simp [StaticAnalysisTool.analysisStep, hp, hs]

/-- Claim C9: the diagnostic records in the responses preserve the native
tool's emission order and are never re-sorted.  `parseDiagnostics` returns
in each severity bucket exactly the parseable lines of that severity,
as the order-preserving one-pass `filterMap` over the split lines, and
`parseAnalysisResults` returns exactly the parseable lines in line order
with messages sanitized — so the record of an earlier line always precedes
the record of a later line of the same bucket, and no re-sorting occurs. -/
theorem parse_results_preserve_emission_order :
    (∀ stderr : String,
      CompilationTool.parseDiagnostics stderr =
        { errors := (emittedDiagnostics stderr).filter
            (fun d => decide (d.severity = "error")),
          warnings := (emittedDiagnostics stderr).filter
            (fun d => decide (d.severity = "warning")),
          notes := (emittedDiagnostics stderr).filter
            (fun d => decide (d.severity = "note")) })
    ∧ (∀ stdout stderr : String,
      StaticAnalysisTool.parseAnalysisResults stdout stderr =
        (emittedFindings stdout stderr).map
          (fun r => { r with
            message := OutputSanitizer.sanitizeCompilerOutput r.message })) := by
  constructor
  · intro stderr
    by_cases h : stderr = ""
    · subst h
      rfl
    · rw [CompilationTool.parseDiagnostics, if_neg h, diag_foldl]
      simp [emittedDiagnostics]
  · intro stdout stderr
    rw [StaticAnalysisTool.parseAnalysisResults]
    by_cases h : strTrim (stderr ++ "\n" ++ stdout) = ""
    · rw [if_pos h]
      have hall : ∀ c ∈ (stderr ++ "\n" ++ stdout).data, isWS c = true := by
        have hdata : trimChars (stderr ++ "\n" ++ stdout).data = [] :=
          congrArg String.data h
        exact all_ws_of_trimChars_nil _ hdata
      symm
      rw [List.map_eq_nil_iff]
      rw [emittedFindings, List.filterMap_eq_nil_iff]
      intro line hline
      rcases List.mem_map.mp hline with ⟨piece, hpiece, rfl⟩
      refine parseAnalysisLine_ws_none _ ?_
      intro c hc
      exact hall c
        (mem_of_mem_splitOnChar (Char.ofNat 10) _ piece hpiece c hc)
    · rw [if_neg h]
      dsimp only
      have key := analysis_foldl
        ((splitOnChar (Char.ofNat 10) (stderr ++ "\n" ++ stdout).data).map
          String.mk) (none, [])
      simp only [Option.toList_none, List.append_nil, List.nil_append] at key
      split
      · rename_i cur heq
        rw [heq] at key
        simp only [Option.toList_some] at key
        rw [key, emittedFindings]
      · rename_i heq
        rw [heq] at key
        simp only [Option.toList_none, List.append_nil] at key
        rw [key, emittedFindings]

/- ## Claims C8 and C10 — the scrubbing passes of `sanitizeAST` -/

/-- A memory-address-looking token starts here: the characters `0` and `x`
followed by a hexadecimal digit. -/
def hexTokAt : List Char → Bool
  | c0 :: c1 :: c2 :: _ => c0 = '0' && c1 = 'x' && OutputSanitizer.isHexDigitChar c2
  | _ => false

/-- Some position of the list starts a memory-address-looking token. -/
def hasHexTok : List Char → Bool
  | [] => false
  | c :: cs => hexTokAt (c :: cs) || hasHexTok cs

/-- Modelled from the spec wording of C8: `0x` followed by six or more
hexadecimal digits starts here. -/
def hexTok6At (l : List Char) : Bool :=
  "0x".data.isPrefixOf l &&
    decide (6 ≤ ((l.drop 2).takeWhile OutputSanitizer.isHexDigitChar).length)

/-- Some position of the list starts a six-digit hexadecimal token. -/
def hasHexTok6 : List Char → Bool
  | [] => false
  | c :: cs => hexTok6At (c :: cs) || hasHexTok6 cs

/-- An occurrence of the combined pattern — `line:` digits, a space, `col:`
digits — starts here. -/
def lineColTokAt (l : List Char) : Bool :=
  (OutputSanitizer.mLineCol l).isSome

/-- Some position of the list starts a combined line/column occurrence. -/
def hasLineColTok : List Char → Bool
  | [] => false
  | c :: cs => lineColTokAt (c :: cs) || hasLineColTok cs

/-- No nonempty suffix of the window `w` is prefix-compatible with the
replacement text `P`: such a window can never straddle a replacement, so its
presence in a scan output forces its presence in the scan input. -/
def pfree (P : List Char) : List Char → Prop
  | [] => True
  | a :: w => (a :: w).isPrefixOf P = false ∧ P.isPrefixOf (a :: w) = false ∧ pfree P w

lemma hasHexTok_cons (c : Char) (cs : List Char) :
    hasHexTok (c :: cs) = (hexTokAt (c :: cs) || hasHexTok cs) := rfl

lemma hasHexTok6_cons (c : Char) (cs : List Char) :
    hasHexTok6 (c :: cs) = (hexTok6At (c :: cs) || hasHexTok6 cs) := rfl

lemma hasLineColTok_cons (c : Char) (cs : List Char) :
    hasLineColTok (c :: cs) = (lineColTokAt (c :: cs) || hasLineColTok cs) := rfl

/-- If a window that is prefix-incompatible with the replacement text starts
the output of the scan, it already started the input. -/
lemma replaceScanF_prefix_pullback (m : List Char → Option (Nat × List Char))
    (P : List Char) (hr : ∀ l k r, m l = some (k, r) → r = P) :
    ∀ (fuel : Nat) (l w t : List Char), pfree P w →
      replaceScanF m fuel l = w ++ t → ∃ u, l = w ++ u := by
  intro fuel
  induction fuel with
  | zero =>
    intro l w t _ h
    cases l with
    | nil =>
      have h0 : ([] : List Char) = w ++ t := h
      exact ⟨t, h0⟩
    | cons c cs =>
      exact ⟨t, h⟩
  | succ fuel ih =>
    intro l w t hw h
    cases l with
    | nil =>
      have h0 : ([] : List Char) = w ++ t := h
      rcases List.append_eq_nil.mp h0.symm with ⟨hw0, ht0⟩
      exact ⟨[], by simp [hw0]⟩
    | cons c cs =>
      cases w with
      | nil => exact ⟨c :: cs, rfl⟩
      | cons a w2 =>
        cases hm : m (c :: cs) with
        | some kr =>
          obtain ⟨k, r⟩ := kr
          have hrP : r = P := hr _ _ _ hm
          have hstep : replaceScanF m (fuel + 1) (c :: cs) =
              P ++ replaceScanF m fuel ((c :: cs).drop (max k 1)) := by
            rw [show replaceScanF m (fuel + 1) (c :: cs) =
                (match m (c :: cs) with
                 | some (k, r) => r ++ replaceScanF m fuel ((c :: cs).drop (max k 1))
                 | none => c :: replaceScanF m fuel cs) from rfl, hm, hrP]
          rw [hstep] at h
          rcases List.append_eq_append_iff.mp h with ⟨x, hx1, hx2⟩ | ⟨x, hx1, hx2⟩
          · have hpre : P.isPrefixOf (a :: w2) = true := by
              rw [List.isPrefixOf_iff_prefix]
              exact ⟨x, hx1.symm⟩
            rw [hw.2.1] at hpre
            exact absurd hpre (by simp)
          · have hpre : (a :: w2).isPrefixOf P = true := by
              rw [List.isPrefixOf_iff_prefix]
              exact ⟨x, hx1.symm⟩
            rw [hw.1] at hpre
            exact absurd hpre (by simp)
        | none =>
          have hstep : replaceScanF m (fuel + 1) (c :: cs) =
              c :: replaceScanF m fuel cs := by
            rw [show replaceScanF m (fuel + 1) (c :: cs) =
                (match m (c :: cs) with
                 | some (k, r) => r ++ replaceScanF m fuel ((c :: cs).drop (max k 1))
                 | none => c :: replaceScanF m fuel cs) from rfl, hm]
          rw [hstep] at h
          have h2 : replaceScanF m fuel cs = w2 ++ t := by
            injection h
          obtain ⟨u, hu⟩ := ih cs w2 t hw.2.2 h2
          have h1 : c = a := by injection h
          exact ⟨u, by rw [h1, hu]; rfl⟩

lemma replaceScanF_step_some (m : List Char → Option (Nat × List Char))
    (fuel : Nat) (c : Char) (cs : List Char) (k : Nat) (r : List Char)
    (hm : m (c :: cs) = some (k, r)) :
    replaceScanF m (fuel + 1) (c :: cs) =
      r ++ replaceScanF m fuel ((c :: cs).drop (max k 1)) := by
  rw [show replaceScanF m (fuel + 1) (c :: cs) =
      (match m (c :: cs) with
       | some (k, r) => r ++ replaceScanF m fuel ((c :: cs).drop (max k 1))
       | none => c :: replaceScanF m fuel cs) from rfl, hm]

lemma replaceScanF_step_none (m : List Char → Option (Nat × List Char))
    (fuel : Nat) (c : Char) (cs : List Char) (hm : m (c :: cs) = none) :
    replaceScanF m (fuel + 1) (c :: cs) = c :: replaceScanF m fuel cs := by
  rw [show replaceScanF m (fuel + 1) (c :: cs) =
      (match m (c :: cs) with
       | some (k, r) => r ++ replaceScanF m fuel ((c :: cs).drop (max k 1))
       | none => c :: replaceScanF m fuel cs) from rfl, hm]

lemma mHexAddr_some (l : List Char) (k : Nat) (r : List Char)
    (h : OutputSanitizer.mHexAddr l = some (k, r)) : r = "<address>".data := by
  rcases l with _ | ⟨c0, _ | ⟨c1, _ | ⟨c2, rest⟩⟩⟩
  · exact absurd h (by simp [OutputSanitizer.mHexAddr])
  · exact absurd h (by simp [OutputSanitizer.mHexAddr])
  · exact absurd h (by simp [OutputSanitizer.mHexAddr])
  · simp only [OutputSanitizer.mHexAddr] at h
    split_ifs at h with hc
    simp only [Option.some.injEq, Prod.mk.injEq] at h
    exact h.2.symm

lemma isPrefixOf_cons_false (a b : Char) (as bs : List Char) (h : a ≠ b) :
    (a :: as).isPrefixOf (b :: bs) = false := by
  simp [List.isPrefixOf, h]

lemma hasHexTok_append_no0 (pre X : List Char) (h : ∀ c ∈ pre, c ≠ '0') :
    hasHexTok (pre ++ X) = hasHexTok X := by
  induction pre with
  | nil => rfl
  | cons p ps ih =>
    rw [List.cons_append, hasHexTok_cons,
      ih (fun c hc => h c (List.mem_cons_of_mem p hc))]
    have hp0 : p ≠ '0' := h p (List.mem_cons_self p ps)
    have hp : hexTokAt (p :: (ps ++ X)) = false := by
      cases hps : ps ++ X with
      | nil => rfl
      | cons q qs =>
        cases qs with
        | nil => rfl
        | cons q2 qs2 => simp [hexTokAt, hp0]
    rw [hp, Bool.false_or]

lemma hasHexTok_drop (l : List Char) (n : Nat) (h : hasHexTok l = false) :
    hasHexTok (l.drop n) = false := by
  induction n generalizing l with
  | zero => simpa using h
  | succ n ih =>
    cases l with
    | nil => simpa using h
    | cons c cs =>
      rw [List.drop_succ_cons]
      apply ih
      rw [hasHexTok_cons, Bool.or_eq_false_iff] at h
      exact h.2

lemma pfree_addr_cons (a : Char) (w : List Char) (ha : a ≠ '<')
    (hw : pfree "<address>".data w) : pfree "<address>".data (a :: w) := by
  exact ⟨isPrefixOf_cons_false a '<' w "address>".data ha,
    isPrefixOf_cons_false '<' a "address>".data w (Ne.symm ha), hw⟩

lemma hexScan_clean : ∀ (fuel : Nat) (l : List Char), l.length ≤ fuel →
    hasHexTok (replaceScanF OutputSanitizer.mHexAddr fuel l) = false := by
  intro fuel
  induction fuel with
  | zero =>
    intro l hl
    have h0 : l = [] := List.length_eq_zero.mp (Nat.le_zero.mp hl)
    subst h0
    rfl
  | succ fuel ih =>
    intro l hl
    cases l with
    | nil => rfl
    | cons c cs =>
      have hlen : cs.length ≤ fuel := by
        simp only [List.length_cons] at hl
        omega
      cases hm : OutputSanitizer.mHexAddr (c :: cs) with
      | some kr =>
        obtain ⟨k, r⟩ := kr
        rw [replaceScanF_step_some _ _ _ _ _ _ hm, mHexAddr_some _ _ _ hm]
        rw [hasHexTok_append_no0 _ _ (by decide)]
        apply ih
        rw [List.length_drop]
        simp only [List.length_cons]
        omega
      | none =>
        rw [replaceScanF_step_none _ _ _ _ hm, hasHexTok_cons, ih cs hlen,
          Bool.or_false]
        cases hRv : replaceScanF OutputSanitizer.mHexAddr fuel cs with
        | nil => rfl
        | cons x1 R2 =>
          cases hR2 : R2 with
          | nil => rfl
          | cons x2 R3 =>
            by_cases hc0 : c = '0'
            · by_cases hx1e : x1 = 'x'
              · by_cases hx2e : OutputSanitizer.isHexDigitChar x2 = true
                · exfalso
                  have hcs : replaceScanF OutputSanitizer.mHexAddr fuel cs =
                      [x1, x2] ++ R3 := by
                    rw [hRv, hR2]
                    rfl
                  have hpf : pfree "<address>".data [x1, x2] := by
                    refine pfree_addr_cons _ _ ?_ (pfree_addr_cons _ _ ?_ trivial)
                    · rw [hx1e]
                      decide
                    · intro hq
                      rw [hq] at hx2e
                      exact absurd hx2e (by decide)
                  obtain ⟨u, hu⟩ := replaceScanF_prefix_pullback _ _
                    mHexAddr_some fuel cs [x1, x2] R3 hpf hcs
                  rw [hu, hc0, hx1e] at hm
                  simp [OutputSanitizer.mHexAddr, hx2e] at hm
                · simp [hexTokAt, hx2e]
              · simp [hexTokAt, hx1e]
            · simp [hexTokAt, hc0]

lemma takeWhile_all_append_cons (p : Char → Bool) (ds : List Char) (c : Char)
    (r : List Char) (hall : ∀ x ∈ ds, p x = true) (hc : p c = false) :
    (ds ++ c :: r).takeWhile p = ds := by
  induction ds with
  | nil => simp [List.takeWhile_cons, hc]
  | cons d dd ih =>
    rw [List.cons_append, List.takeWhile_cons, hall d (List.mem_cons_self d dd)]
    simp only [if_true]
    rw [ih (fun x hx => hall x (List.mem_cons_of_mem d hx))]

lemma drop_left_len (l1 l2 : List Char) (n : Nat) (h : l1.length = n) :
    (l1 ++ l2).drop n = l2 := by
  subst h
  exact List.drop_left _ _

lemma mLineCol_some_repl (l : List Char) (k : Nat) (r : List Char)
    (h : OutputSanitizer.mLineCol l = some (k, r)) :
    r = "line:<line> col:<col>".data := by
  simp only [OutputSanitizer.mLineCol] at h
  split_ifs at h
  simp only [Option.some.injEq, Prod.mk.injEq] at h
  exact h.2.symm

lemma mLineCol_none_of_head (c : Char) (cs : List Char) (hc : c ≠ 'l') :
    OutputSanitizer.mLineCol (c :: cs) = none := by
  simp only [OutputSanitizer.mLineCol]
  have hpre : "line:".data.isPrefixOf (c :: cs) = false :=
    isPrefixOf_cons_false 'l' c _ _ (Ne.symm hc)
  simp [hpre]

lemma mLineCol_some_shape (v : List Char) (k : Nat) (r : List Char)
    (h : OutputSanitizer.mLineCol v = some (k, r)) :
    ∃ ds es t, v = "line:".data ++ (ds ++ (" col:".data ++ (es ++ t))) ∧
      ds ≠ [] ∧ es ≠ [] ∧ (∀ c ∈ ds, c.isDigit = true) ∧
      (∀ c ∈ es, c.isDigit = true) := by
  simp only [OutputSanitizer.mLineCol] at h
  split_ifs at h with h1 h2 h3 h4
  obtain ⟨t1, ht1⟩ := List.isPrefixOf_iff_prefix.mp h1
  have hv5 : v.drop 5 = t1 := by
    rw [← ht1]
    exact drop_left_len _ _ 5 rfl
  rw [hv5] at h2 h3 h4
  set ds := t1.takeWhile Char.isDigit with hds
  obtain ⟨u, hu⟩ := List.takeWhile_prefix (l := t1) (p := Char.isDigit)
  have hu2eq : t1.drop ds.length = u := by
    rw [← hu]
    exact List.drop_left _ _
  rw [hu2eq] at h3 h4
  obtain ⟨u2, hcol⟩ := List.isPrefixOf_iff_prefix.mp h3
  have hu5 : u.drop 5 = u2 := by
    rw [← hcol]
    exact drop_left_len _ _ 5 rfl
  rw [hu5] at h4
  set es := u2.takeWhile Char.isDigit with hes
  obtain ⟨t2, ht2⟩ := List.takeWhile_prefix (l := u2) (p := Char.isDigit)
  refine ⟨ds, es, t2, ?_, ?_, ?_, ?_, ?_⟩
  · calc v = "line:".data ++ t1 := ht1.symm
      _ = "line:".data ++ (ds ++ u) := by rw [hu]
      _ = "line:".data ++ (ds ++ (" col:".data ++ u2)) := by rw [hcol]
      _ = "line:".data ++ (ds ++ (" col:".data ++ (es ++ t2))) := by rw [ht2]
  · intro hnil
    rw [hnil] at h2
    exact h2 rfl
  · intro hnil
    rw [hnil] at h4
    exact h4 rfl
  · intro c hc
    rw [hds] at hc
    exact List.mem_takeWhile_imp hc
  · intro c hc
    rw [hes] at hc
    exact List.mem_takeWhile_imp hc

lemma mLineCol_matches (ds es t : List Char) (hds : ds ≠ []) (hes : es ≠ [])
    (hdd : ∀ c ∈ ds, c.isDigit = true) (hee : ∀ c ∈ es, c.isDigit = true) :
    OutputSanitizer.mLineCol
      ("line:".data ++ (ds ++ (" col:".data ++ (es ++ t)))) ≠ none := by
  have h1 : "line:".data.isPrefixOf
      ("line:".data ++ (ds ++ (" col:".data ++ (es ++ t)))) = true := by
    rw [List.isPrefixOf_iff_prefix]
    exact ⟨ds ++ (" col:".data ++ (es ++ t)), rfl⟩
  have h2 : ("line:".data ++ (ds ++ (" col:".data ++ (es ++ t)))).drop 5 =
      ds ++ (" col:".data ++ (es ++ t)) := drop_left_len _ _ 5 rfl
  have h3 : (ds ++ (" col:".data ++ (es ++ t))).takeWhile Char.isDigit = ds := by
    have : ds ++ (" col:".data ++ (es ++ t)) =
        ds ++ ' ' :: ("col:".data ++ (es ++ t)) := rfl
    rw [this]
    exact takeWhile_all_append_cons _ _ _ _ hdd (by decide)
  have h4 : ds.isEmpty = false := by
    cases ds with
    | nil => exact absurd rfl hds
    | cons d dd => rfl
  have h5 : (ds ++ (" col:".data ++ (es ++ t))).drop ds.length =
      " col:".data ++ (es ++ t) := List.drop_left _ _
  have h6 : " col:".data.isPrefixOf (" col:".data ++ (es ++ t)) = true := by
    rw [List.isPrefixOf_iff_prefix]
    exact ⟨es ++ t, rfl⟩
  have h7 : (" col:".data ++ (es ++ t)).drop 5 = es ++ t :=
    drop_left_len _ _ 5 rfl
  have h8 : ((es ++ t).takeWhile Char.isDigit).isEmpty = false := by
    cases es with
    | nil => exact absurd rfl hes
    | cons e ee =>
      rw [List.cons_append, List.takeWhile_cons,
        hee e (List.mem_cons_self e ee)]
      rfl
  simp only [OutputSanitizer.mLineCol, h1, h2, h3, h4, h5, h6, h7, h8,
    if_true, if_false, Bool.false_eq_true]
  simp

lemma pfree_lc_cons (a : Char) (w : List Char) (ha : a ≠ 'l')
    (hw : pfree "line:<line> col:<col>".data w) :
    pfree "line:<line> col:<col>".data (a :: w) := by
  exact ⟨isPrefixOf_cons_false a 'l' w "ine:<line> col:<col>".data ha,
    isPrefixOf_cons_false 'l' a "ine:<line> col:<col>".data w (Ne.symm ha), hw⟩

lemma pfree_lc_digits (ds w : List Char) (hdd : ∀ c ∈ ds, c.isDigit = true)
    (hw : pfree "line:<line> col:<col>".data w) :
    pfree "line:<line> col:<col>".data (ds ++ w) := by
  induction ds with
  | nil => exact hw
  | cons d dd ih =>
    rw [List.cons_append]
    refine pfree_lc_cons d _ ?_ (ih (fun c hc => hdd c (List.mem_cons_of_mem d hc)))
    intro hd
    have := hdd d (List.mem_cons_self d dd)
    rw [hd] at this
    exact absurd this (by decide)

lemma pfree_lc_digits_only (es : List Char) (hee : ∀ c ∈ es, c.isDigit = true) :
    pfree "line:<line> col:<col>".data es := by
  have h := pfree_lc_digits es [] hee trivial
  rwa [List.append_nil] at h

lemma pfree_lc_tail (es : List Char) (hee : ∀ c ∈ es, c.isDigit = true) :
    pfree "line:<line> col:<col>".data ('l' :: ':' :: es) := by
  refine ⟨?_, ?_, pfree_lc_cons ':' es (by decide) (pfree_lc_digits_only es hee)⟩
  · show (('l' :: ':' :: es).isPrefixOf ('l' :: 'i' :: "ne:<line> col:<col>".data)) = false
    simp [List.isPrefixOf]
  · show (('l' :: 'i' :: "ne:<line> col:<col>".data).isPrefixOf ('l' :: ':' :: es)) = false
    simp [List.isPrefixOf]

lemma pfree_lc_window (ds es : List Char) (hdd : ∀ c ∈ ds, c.isDigit = true)
    (hee : ∀ c ∈ es, c.isDigit = true) :
    pfree "line:<line> col:<col>".data
      ('i' :: 'n' :: 'e' :: ':' :: (ds ++ (' ' :: 'c' :: 'o' :: 'l' :: ':' :: es))) := by
  refine pfree_lc_cons _ _ (by decide) (pfree_lc_cons _ _ (by decide)
    (pfree_lc_cons _ _ (by decide) (pfree_lc_cons _ _ (by decide) ?_)))
  refine pfree_lc_digits ds _ hdd ?_
  refine pfree_lc_cons _ _ (by decide) (pfree_lc_cons _ _ (by decide)
    (pfree_lc_cons _ _ (by decide) ?_))
  exact pfree_lc_tail es hee

lemma hasLineColTok_nil : hasLineColTok [] = false := rfl

lemma mLineCol_fail5 (cs : List Char) :
    OutputSanitizer.mLineCol ('l' :: 'i' :: 'n' :: 'e' :: '>' :: cs) = none := by
  simp only [OutputSanitizer.mLineCol]
  have hpre : "line:".data.isPrefixOf ('l' :: 'i' :: 'n' :: 'e' :: '>' :: cs) = false := by
    simp [List.isPrefixOf]
  simp [hpre]

lemma mLineCol_fail2 (cs : List Char) (c2 : Char) (h : c2 ≠ 'i') :
    OutputSanitizer.mLineCol ('l' :: c2 :: cs) = none := by
  simp only [OutputSanitizer.mLineCol]
  have h1 : ('i' == c2) = false := beq_eq_false_iff_ne.mpr (Ne.symm h)
  have hpre : "line:".data.isPrefixOf ('l' :: c2 :: cs) = false := by
    simp [List.isPrefixOf, h1]
  simp [hpre]

lemma mLineCol_P_append (X : List Char) :
    OutputSanitizer.mLineCol ("line:<line> col:<col>".data ++ X) = none := by
  simp only [OutputSanitizer.mLineCol]
  have hds : (("line:<line> col:<col>".data ++ X).drop 5).takeWhile Char.isDigit
      = [] := by
    show (('<' :: ("line> col:<col>".data ++ X)).takeWhile Char.isDigit) = []
    rw [List.takeWhile_cons]
    simp
  rw [hds]
  simp

lemma hasLineColTok_append_P (X : List Char) :
    hasLineColTok ("line:<line> col:<col>".data ++ X) = hasLineColTok X := by
  show hasLineColTok ('l' :: 'i' :: 'n' :: 'e' :: ':' :: '<' :: 'l' :: 'i' :: 'n'
    :: 'e' :: '>' :: ' ' :: 'c' :: 'o' :: 'l' :: ':' :: '<' :: 'c' :: 'o' :: 'l'
    :: '>' :: X) = hasLineColTok X
  rw [hasLineColTok_cons, hasLineColTok_cons, hasLineColTok_cons,
    hasLineColTok_cons, hasLineColTok_cons, hasLineColTok_cons,
    hasLineColTok_cons, hasLineColTok_cons, hasLineColTok_cons,
    hasLineColTok_cons, hasLineColTok_cons, hasLineColTok_cons,
    hasLineColTok_cons, hasLineColTok_cons, hasLineColTok_cons,
    hasLineColTok_cons, hasLineColTok_cons, hasLineColTok_cons,
    hasLineColTok_cons, hasLineColTok_cons, hasLineColTok_cons]
  have t0 : lineColTokAt ('l' :: 'i' :: 'n' :: 'e' :: ':' :: '<' :: 'l' :: 'i'
      :: 'n' :: 'e' :: '>' :: ' ' :: 'c' :: 'o' :: 'l' :: ':' :: '<' :: 'c'
      :: 'o' :: 'l' :: '>' :: X) = false := by
    rw [lineColTokAt]
    show (OutputSanitizer.mLineCol ("line:<line> col:<col>".data ++ X)).isSome = false
    rw [mLineCol_P_append X]
    rfl
  have t6 : lineColTokAt ('l' :: 'i' :: 'n' :: 'e' :: '>' :: (' ' :: 'c' :: 'o'
      :: 'l' :: ':' :: '<' :: 'c' :: 'o' :: 'l' :: '>' :: X)) = false := by
    rw [lineColTokAt, mLineCol_fail5]
    rfl
  have t14 : lineColTokAt ('l' :: (':' :: '<' :: 'c' :: 'o' :: 'l' :: '>' :: X))
      = false := by
    rw [lineColTokAt, mLineCol_fail2 _ ':' (by decide)]
    rfl
  have t19 : lineColTokAt ('l' :: ('>' :: X)) = false := by
    rw [lineColTokAt, mLineCol_fail2 _ '>' (by decide)]
    rfl
  have tother : ∀ (c : Char) (cs : List Char), c ≠ 'l' →
      lineColTokAt (c :: cs) = false := by
    intro c cs hc
    rw [lineColTokAt, mLineCol_none_of_head c cs hc]
    rfl
  rw [t0, t6, t14, t19]
  rw [tother 'i' _ (by decide), tother 'n' _ (by decide), tother 'e' _ (by decide),
    tother ':' _ (by decide), tother '<' _ (by decide), tother 'i' _ (by decide),
    tother 'n' _ (by decide), tother 'e' _ (by decide), tother '>' _ (by decide),
    tother ' ' _ (by decide), tother 'c' _ (by decide), tother 'o' _ (by decide),
    tother ':' _ (by decide), tother '<' _ (by decide), tother 'c' _ (by decide),
    tother 'o' _ (by decide), tother '>' _ (by decide)]
  simp

lemma lineColScan_clean : ∀ (fuel : Nat) (l : List Char), l.length ≤ fuel →
    hasLineColTok (replaceScanF OutputSanitizer.mLineCol fuel l) = false := by
  intro fuel
  induction fuel with
  | zero =>
    intro l hl
    have h0 : l = [] := List.length_eq_zero.mp (Nat.le_zero.mp hl)
    subst h0
    rfl
  | succ fuel ih =>
    intro l hl
    cases l with
    | nil => rfl
    | cons c cs =>
      have hlen : cs.length ≤ fuel := by
        simp only [List.length_cons] at hl
        omega
      cases hm : OutputSanitizer.mLineCol (c :: cs) with
      | some kr =>
        obtain ⟨k, r⟩ := kr
        rw [replaceScanF_step_some _ _ _ _ _ _ hm, mLineCol_some_repl _ _ _ hm,
          hasLineColTok_append_P]
        apply ih
        rw [List.length_drop]
        simp only [List.length_cons]
        omega
      | none =>
        rw [replaceScanF_step_none _ _ _ _ hm, hasLineColTok_cons, ih cs hlen,
          Bool.or_false]
        rw [lineColTokAt]
        cases hs : OutputSanitizer.mLineCol
            (c :: replaceScanF OutputSanitizer.mLineCol fuel cs) with
        | none => rfl
        | some kr =>
          exfalso
          obtain ⟨k, r⟩ := kr
          obtain ⟨ds, es, t, hv, hds, hes, hdd, hee⟩ := mLineCol_some_shape _ _ _ hs
          have hv2 : c :: replaceScanF OutputSanitizer.mLineCol fuel cs =
              'l' :: ("ine:".data ++ (ds ++ (" col:".data ++ (es ++ t)))) := hv
          have hc : c = 'l' := ((List.cons.injEq _ _ _ _).mp hv2).1
          have hR : replaceScanF OutputSanitizer.mLineCol fuel cs =
              "ine:".data ++ (ds ++ (" col:".data ++ (es ++ t))) :=
            ((List.cons.injEq _ _ _ _).mp hv2).2
          have hRw : replaceScanF OutputSanitizer.mLineCol fuel cs =
              ('i' :: 'n' :: 'e' :: ':' ::
                (ds ++ (' ' :: 'c' :: 'o' :: 'l' :: ':' :: es))) ++ t := by
            rw [hR]
            show 'i' :: 'n' :: 'e' :: ':' ::
                (ds ++ (' ' :: 'c' :: 'o' :: 'l' :: ':' :: (es ++ t))) =
              ('i' :: 'n' :: 'e' :: ':' ::
                (ds ++ (' ' :: 'c' :: 'o' :: 'l' :: ':' :: es))) ++ t
            simp [List.cons_append, List.append_assoc]
          obtain ⟨u, hu⟩ := replaceScanF_prefix_pullback _ _ mLineCol_some_repl
            fuel cs _ t (pfree_lc_window ds es hdd hee) hRw
          have hcontr := mLineCol_matches ds es u hds hes hdd hee
          apply hcontr
          have hfin : "line:".data ++ (ds ++ (" col:".data ++ (es ++ u))) =
              c :: cs := by
            rw [hc, hu]
            show 'l' :: 'i' :: 'n' :: 'e' :: ':' ::
                (ds ++ (' ' :: 'c' :: 'o' :: 'l' :: ':' :: (es ++ u))) =
              'l' :: (('i' :: 'n' :: 'e' :: ':' ::
                (ds ++ (' ' :: 'c' :: 'o' :: 'l' :: ':' :: es))) ++ u)
            simp [List.cons_append, List.append_assoc]
          rw [hfin]
          exact hm

lemma lineCol_preserves_hexfree : ∀ (fuel : Nat) (l : List Char),
    l.length ≤ fuel → hasHexTok l = false →
    hasHexTok (replaceScanF OutputSanitizer.mLineCol fuel l) = false := by
  intro fuel
  induction fuel with
  | zero =>
    intro l hl _
    have h0 : l = [] := List.length_eq_zero.mp (Nat.le_zero.mp hl)
    subst h0
    rfl
  | succ fuel ih =>
    intro l hl hfree
    cases l with
    | nil => rfl
    | cons c cs =>
      have hlen : cs.length ≤ fuel := by
        simp only [List.length_cons] at hl
        omega
      have hsplit := hfree
      rw [hasHexTok_cons, Bool.or_eq_false_iff] at hsplit
      obtain ⟨hfreeAt, hfree2⟩ := hsplit
      cases hm : OutputSanitizer.mLineCol (c :: cs) with
      | some kr =>
        obtain ⟨k, r⟩ := kr
        rw [replaceScanF_step_some _ _ _ _ _ _ hm, mLineCol_some_repl _ _ _ hm]
        rw [hasHexTok_append_no0 _ _ (by decide)]
        apply ih
        · rw [List.length_drop]
          simp only [List.length_cons]
          omega
        · exact hasHexTok_drop _ _ hfree
      | none =>
        rw [replaceScanF_step_none _ _ _ _ hm, hasHexTok_cons,
          ih cs hlen hfree2, Bool.or_false]
        cases hRv : replaceScanF OutputSanitizer.mLineCol fuel cs with
        | nil => rfl
        | cons x1 R2 =>
          cases hR2v : R2 with
          | nil => rfl
          | cons x2 R3 =>
            by_cases hc0 : c = '0'
            · by_cases hx1e : x1 = 'x'
              · by_cases hx2e : OutputSanitizer.isHexDigitChar x2 = true
                · exfalso
                  have hcs2 : replaceScanF OutputSanitizer.mLineCol fuel cs =
                      [x1, x2] ++ R3 := by
                    rw [hRv, hR2v]
                    rfl
                  have hpf : pfree "line:<line> col:<col>".data [x1, x2] := by
                    refine pfree_lc_cons _ _ ?_ (pfree_lc_cons _ _ ?_ trivial)
                    · rw [hx1e]
                      decide
                    · intro hq
                      rw [hq] at hx2e
                      exact absurd hx2e (by decide)
                  obtain ⟨u, hu⟩ := replaceScanF_prefix_pullback _ _
                    mLineCol_some_repl fuel cs _ R3 hpf hcs2
                  have hat : hexTokAt (c :: cs) = true := by
                    rw [hu, hc0, hx1e]
                    show hexTokAt ('0' :: 'x' :: x2 :: u) = true
                    simp [hexTokAt, hx2e]
                  exact absurd hat (by simp [hfreeAt])
                · simp [hexTokAt, hx2e]
              · simp [hexTokAt, hx1e]
            · simp [hexTokAt, hc0]

lemma hexScan_clean_all (l : List Char) :
    hasHexTok (replaceScan OutputSanitizer.mHexAddr l) = false :=
  hexScan_clean _ _ le_rfl

lemma lineCol_preserves_hexfree_all (l : List Char) (h : hasHexTok l = false) :
    hasHexTok (replaceScan OutputSanitizer.mLineCol l) = false :=
  lineCol_preserves_hexfree _ _ le_rfl h

lemma lineColScan_clean_all (l : List Char) :
    hasLineColTok (replaceScan OutputSanitizer.mLineCol l) = false :=
  lineColScan_clean _ _ le_rfl

lemma hexTok6At_imp (l : List Char) (h : hexTok6At l = true) :
    hexTokAt l = true := by
  rw [hexTok6At, Bool.and_eq_true] at h
  obtain ⟨h1, h2⟩ := h
  obtain ⟨t, ht⟩ := List.isPrefixOf_iff_prefix.mp h1
  rw [decide_eq_true_eq] at h2
  subst ht
  have hd : ("0x".data ++ t).drop 2 = t := rfl
  rw [hd] at h2
  cases t with
  | nil => simp at h2
  | cons t0 ts =>
    by_cases h0 : OutputSanitizer.isHexDigitChar t0 = true
    · show hexTokAt ('0' :: 'x' :: t0 :: ts) = true
      simp [hexTokAt, h0]
    · rw [List.takeWhile_cons, if_neg h0] at h2
      exact absurd h2 (by decide)

lemma hasHexTok6_of_clean (l : List Char) (h : hasHexTok l = false) :
    hasHexTok6 l = false := by
  induction l with
  | nil => rfl
  | cons c cs ih =>
    rw [hasHexTok_cons, Bool.or_eq_false_iff] at h
    rw [hasHexTok6_cons, ih h.2, Bool.or_false]
    by_contra hb
    rw [Bool.not_eq_false] at hb
    exact absurd (hexTok6At_imp _ hb) (by simp [h.1])

/-- Claim C8: every memory-address-looking hexadecimal token — `0x` followed
by hex digits, in particular every token of six or more digits — is replaced
by the fixed placeholder in the sanitized AST output: no occurrence of `0x`
followed by six or more hexadecimal digits survives `sanitizeAST` (the
address pass scrubs every such token, and the later line/column pass cannot
re-create one), and a concrete address token becomes the placeholder. -/
theorem sanitizeAST_scrubs_hex_addresses :
    (∀ ast : String, hasHexTok6 (OutputSanitizer.sanitizeAST ast).data = false) ∧
    OutputSanitizer.sanitizeAST "ptr 0xDEADBEEF12 end" = "ptr <address> end" := by
  constructor
  · intro ast
    exact hasHexTok6_of_clean _
      (lineCol_preserves_hexfree_all _ (hexScan_clean_all _))
  · rfl

/-- Claim C10, counterexample: the sanitized AST does retain concrete line
and column positions — the regex only matches the combined
`line:<digits> col:<digits>` shape, so a standalone `col:` token (which
clang AST dumps print routinely) and a standalone `line:` token pass
through `sanitizeAST` unchanged. -/
theorem sanitizeAST_keeps_bare_positions_counterexample :
    OutputSanitizer.sanitizeAST "col:7" = "col:7" ∧
    OutputSanitizer.sanitizeAST "line:12" = "line:12" :=
  ⟨rfl, rfl⟩

/-- Claim C10 as amended: `sanitizeAST` replaces every occurrence of the
combined pattern `line:<digits> col:<digits>` with the fixed placeholders —
no such occurrence survives in the output — but standalone `line:` or
`col:` tokens are not matched and keep their concrete positions. -/
theorem sanitizeAST_scrubs_combined_line_col (ast : String) :
    hasLineColTok (OutputSanitizer.sanitizeAST ast).data = false :=
  lineColScan_clean_all _
